import Mathlib

/-!
Shallow embedding of the crane-rm contract-analysis backend, covering the
parts of the code that the verified properties below are about:

* `src/backend/src/models/types.ts` — the data model (priorities, statuses,
  chunks, candidate chunks, findings, provisions);
* `src/backend/src/config/analysis.config.ts` — the `analysisConfig` constants;
* `src/backend/src/services/firebase.service.ts` — `createFinding` (a keyed
  upsert into the findings collection, the document id being the provision id);
* `src/backend/src/agents/runner.ts` — batching (`groupProvisionsForLLM`),
  auto-not-found recording, reconciliation (`finalizeAnalysis`,
  `recordErrorBatch`, `recordMissingBatch`);
* `src/backend/src/services/prescreening.service.ts` — vector screening,
  exact keyword search, candidate merging, partitioning;
* `src/backend/src/routes/results.ts` — `calculateRiskScore`.

Modelling conventions: TypeScript numbers carrying similarity scores become
rationals (`ℚ`); page numbers and counts become `Nat`; `undefined`-able fields
become `Option`; JavaScript `Map`s and Firestore collections become
association lists whose insert keeps the original position of an existing key,
mirroring `Map.prototype.set` / `doc(id).set`; asynchronous code whose awaited
calls happen in program order is modelled by sequential folds; fallible
external calls are modelled in the `Except` monad.  Wall-clock timestamps
(`createdAt`, `completedAt`) are elided: no verified property mentions them.
-/

/-- `ProvisionPriority` from `types.ts`. -/
inductive ProvisionPriority where
  | critical
  | high
  | medium
  | low
deriving DecidableEq, Repr

/-- `AnalysisStatus` from `types.ts`: `'running' | 'complete' | 'partial' | 'failed'`.
The `'partial'` member is spelled `partialResult` here. -/
inductive AnalysisStatus where
  | running
  | complete
  | partialResult
  | failed
deriving DecidableEq, Repr

/-- `ContractStatus` from `types.ts`. -/
inductive ContractStatus where
  | uploaded
  | parsed
  | embedded
  | analyzing
  | complete
  | failed
deriving DecidableEq, Repr

/-- `EmbeddingStatus` from `types.ts`. -/
inductive EmbeddingStatus where
  | pending
  | done
  | failed
deriving DecidableEq, Repr

/-- `ScreeningResult` from `types.ts`. -/
inductive ScreeningResult where
  | no_candidates
  | analyzed_not_found
  | analyzed_found
  | not_analyzed
  | error
deriving DecidableEq, Repr

/-- `confidenceRubric` field of a `Provision` (`types.ts`). -/
structure ConfidenceRubric where
  explicit : String
  strongParaphrase : String
  weak : String
deriving DecidableEq, Repr

/-- `Provision` catalog entry from `types.ts`. -/
structure Provision where
  provisionId : String
  priority : ProvisionPriority
  canonicalWording : String
  synonyms : List String
  definition : String
  suggestedAction : Option String := none
  falsePositiveTraps : List String := []
  confidenceRubric : ConfidenceRubric := ⟨"", "", ""⟩
  searchQueries : Option (List String) := none
  exactPatterns : Option (List String) := none
  clusterId : Option String := none
deriving DecidableEq, Repr

/-- `Chunk` from `types.ts` (a page-bounded span of contract text). -/
structure Chunk where
  chunkId : String
  userId : String
  contractId : String
  pageStart : Nat
  pageEnd : Nat
  sectionPath : Option String := none
  text : String
  textHash : String := ""
  embeddingStatus : EmbeddingStatus := .done
deriving DecidableEq, Repr

/-- `CandidateMatchType` from `types.ts`. -/
inductive CandidateMatchType where
  | vector
  | keyword
  | both
deriving DecidableEq, Repr

/-- `CandidateChunk` from `types.ts`. -/
structure CandidateChunk where
  chunkId : String
  pageStart : Nat
  pageEnd : Nat
  score : ℚ
  text : String
  matchType : CandidateMatchType
  keywordMatches : Option (List String) := none
deriving DecidableEq, Repr

/-- `CandidateMap` from `types.ts` (`Record<string, CandidateChunk[]>`),
as an association list from provision id to candidate list. -/
abbrev CandidateMap : Type := List (String × List CandidateChunk)

/-- `Finding` from `types.ts`.  The `createdAt` timestamp is elided. -/
structure Finding where
  provisionId : String
  priority : ProvisionPriority
  matched : Bool
  confidence : ℚ
  evidenceChunkIds : List String
  evidencePages : List Nat
  evidenceExcerpts : List String
  reasoningSummary : String
  recommendedAction : Option String := none
  screeningResult : Option ScreeningResult := none
deriving DecidableEq, Repr

/-- `ProvisionEmbeddings` from `types.ts`; an embedding vector is a `List ℚ`. -/
structure ProvisionEmbeddings where
  canonical : List ℚ
  synonyms : List (List ℚ)
  searchQueries : List (List ℚ)

/-- One entry of `SearchChunksResult[]` as returned by
`searchVectors` in `pinecone.service.ts`. -/
structure SearchChunksResult where
  chunkId : String
  pageStart : Nat
  pageEnd : Nat
  score : ℚ
  textPreview : String

/-! ## `analysisConfig` (`src/backend/src/config/analysis.config.ts`) -/

structure PrescreeningConfig where
  vectorSimilarityThreshold : ℚ
  topKPerProvision : Nat
  topKPerSynonym : Nat
  alwaysIncludeExactMatches : Bool

structure LLMConfig where
  maxConcurrentBatches : Nat
  stepLimits : ProvisionPriority → Nat
  defaultStepLimit : Nat

structure BatchingConfig where
  maxProvisionsPerBatch : Nat
  minCandidatesForLLM : Nat

structure TimeoutsConfig where
  prescreening : Nat
  batchProcessing : Nat
  totalAnalysis : Nat

structure FeaturesConfig where
  enableTwoPassAnalysis : Bool
  enableParallelBatches : Bool
  enableProvisionClusters : Bool
  enableAutoNotFound : Bool

structure AnalysisConfig where
  prescreening : PrescreeningConfig
  llm : LLMConfig
  batching : BatchingConfig
  timeouts : TimeoutsConfig
  features : FeaturesConfig

/-- The `analysisConfig` constant from `analysis.config.ts`. -/
def analysisConfig : AnalysisConfig :=
  { prescreening :=
      { vectorSimilarityThreshold := 0.65
        topKPerProvision := 5
        topKPerSynonym := 3
        alwaysIncludeExactMatches := true }
    llm :=
      { maxConcurrentBatches := 3
        stepLimits := fun pr =>
          match pr with
          | .critical => 60
          | .high => 30
          | .medium => 30
          | .low => 20
        defaultStepLimit := 40 }
    batching :=
      { maxProvisionsPerBatch := 15
        minCandidatesForLLM := 1 }
    timeouts :=
      { prescreening := 30000
        batchProcessing := 120000
        totalAnalysis := 300000 }
    features :=
      { enableTwoPassAnalysis := true
        enableParallelBatches := true
        enableProvisionClusters := true
        enableAutoNotFound := true } }

/-! ## Finding store (`firebase.service.ts`)

Firestore keeps findings at
`contracts/{contractId}/analyses/{analysisId}/findings/{provisionId}`;
for a fixed contract and analysis the collection is a finite map from
provision id to `Finding`, modelled as an association list. -/

/-- The findings collection of one analysis. -/
abbrev FindingStore : Type := List (String × Finding)

/-- `createFinding` from `firebase.service.ts`:
`findingsCollection(contractId, analysisId).doc(provisionId).set({...data})`,
an idempotent upsert keyed by the provision id (an existing document keeps
its position; a new one is appended). -/
def createFinding (store : FindingStore) (provisionId : String) (data : Finding) :
    FindingStore :=
  if store.any (fun e => e.1 = provisionId) then
    store.map (fun e => if e.1 = provisionId then (provisionId, data) else e)
  else
    store ++ [(provisionId, data)]

/-- `getFindings` from `firebase.service.ts`: the documents of the findings
collection. -/
def getFindings (store : FindingStore) : List Finding :=
  store.map (fun e => e.2)

/-! ## Reconciliation (`src/backend/src/agents/runner.ts`) -/

/-- The `error` payload of a `BatchResult` in `runner.ts`. -/
structure BatchErrorInfo where
  message : String
  code : Option String := none

/-- `BatchResult` from `runner.ts`. -/
structure BatchResult where
  batchIndex : Nat
  success : Bool
  provisions : List Provision
  error : Option BatchErrorInfo := none
  stepsCompleted : Option Nat := none

/-- The `summaryCounts` object computed in `finalizeAnalysis`. -/
structure SummaryCounts where
  criticalMatched : Nat
  highMatched : Nat
  mediumMatched : Nat
  lowMatched : Nat
deriving DecidableEq, Repr

/-- The `errorInfo` object built in `finalizeAnalysis` (the `Analysis.error`
field of `types.ts`). -/
structure AnalysisErrorInfo where
  message : String
  code : Option String := none
  batchesFailed : Option Nat := none
  batchesSucceeded : Option Nat := none
  failedProvisionIds : Option (List String) := none
deriving DecidableEq, Repr

/-- The finding written by `recordNotFoundBatch` in `runner.ts` for a
provision with no pre-screening candidates. -/
def notFoundFinding (provision : Provision) : Finding :=
  { provisionId := provision.provisionId
    priority := provision.priority
    matched := false
    confidence := 0
    evidenceChunkIds := []
    evidencePages := []
    evidenceExcerpts := []
    reasoningSummary :=
      "No candidate chunks found during pre-screening. Provision not present in contract."
    screeningResult := some .no_candidates }

/-- The finding written by `recordErrorBatch` in `runner.ts` for a provision
of a failed batch. -/
def errorFinding (provision : Provision) (errorMessage : String) : Finding :=
  { provisionId := provision.provisionId
    priority := provision.priority
    matched := false
    confidence := 0
    evidenceChunkIds := []
    evidencePages := []
    evidenceExcerpts := []
    reasoningSummary := s!"Analysis error: {errorMessage}. Please retry the analysis."
    screeningResult := some .error }

/-- The finding written by `recordMissingBatch` in `runner.ts` for a provision
the agent never recorded. -/
def notAnalyzedFinding (provision : Provision) : Finding :=
  { provisionId := provision.provisionId
    priority := provision.priority
    matched := false
    confidence := 0
    evidenceChunkIds := []
    evidencePages := []
    evidenceExcerpts := []
    reasoningSummary :=
      "Provision was not fully analyzed due to processing limits. Marked as not found by default."
    screeningResult := some .not_analyzed }

/-- `recordNotFoundBatch` from `runner.ts`: one `createFinding` per provision
(the `Promise.all` of independent keyed writes is modelled in program order). -/
def recordNotFoundBatch (store : FindingStore) (provisions : List Provision) :
    FindingStore :=
  provisions.foldl
    (fun s provision => createFinding s provision.provisionId (notFoundFinding provision))
    store

/-- `recordErrorBatch` from `runner.ts`. -/
def recordErrorBatch (store : FindingStore) (provisions : List Provision)
    (errorMessage : String) : FindingStore :=
  provisions.foldl
    (fun s provision =>
      createFinding s provision.provisionId (errorFinding provision errorMessage))
    store

/-- `recordMissingBatch` from `runner.ts`. -/
def recordMissingBatch (store : FindingStore) (provisions : List Provision) :
    FindingStore :=
  provisions.foldl
    (fun s provision =>
      createFinding s provision.provisionId (notAnalyzedFinding provision))
    store

/-- JavaScript `a?.b?.c || dflt` over the first failed batch's error message:
`failedBatches[0]?.error?.message || 'Batch processing failed'` (the empty
string is falsy and also falls back). -/
def firstErrorMessageOr (failedBatches : List BatchResult) (dflt : String) : String :=
  match (failedBatches.head?.bind (fun b => b.error)).map (fun e => e.message) with
  | some m => if m = "" then dflt else m
  | none => dflt

/-- `failedBatches[0]?.error?.code` in `finalizeAnalysis`. -/
def firstErrorCode (failedBatches : List BatchResult) : Option String :=
  (failedBatches.head?.bind (fun b => b.error)).bind (fun e => e.code)

/-- The outcome of `finalizeAnalysis`: the findings collection after
reconciliation, and the fields written by `updateAnalysis` and
`updateContract`. -/
structure FinalizeResult where
  findings : FindingStore
  status : AnalysisStatus
  summaryCounts : SummaryCounts
  error : Option AnalysisErrorInfo
  contractStatus : ContractStatus

/-- `finalizeAnalysis` from `runner.ts` (lines 502–595): record error findings
for provisions of failed batches, backfill `not_analyzed` findings for
provisions still missing one, recompute summary counts, pick the terminal
status, and derive the parent contract's status. `store` is the findings
collection as left behind by the verification batches. -/
def finalizeAnalysis (store : FindingStore) (allProvisions : List Provision)
    (batchResults : List BatchResult) : FinalizeResult :=
  let successfulBatches := batchResults.filter (fun r => r.success)
  let failedBatches := batchResults.filter (fun r => !r.success)
  -- Record error findings for provisions in failed batches
  let store₁ :=
    if failedBatches.length > 0 then
      recordErrorBatch store (failedBatches.flatMap (fun b => b.provisions))
        (firstErrorMessageOr failedBatches "Batch processing failed")
    else store
  -- Find provisions that don't have findings recorded
  let recordedProvisionIds := store₁.map (fun e => e.1)
  let missingProvisions :=
    allProvisions.filter (fun p => !(recordedProvisionIds.contains p.provisionId))
  let store₂ :=
    if missingProvisions.length > 0 then recordMissingBatch store₁ missingProvisions
    else store₁
  let findings := getFindings store₂
  -- Calculate summary counts
  let summaryCounts : SummaryCounts :=
    { criticalMatched :=
        (findings.filter (fun f => f.priority = .critical && f.matched)).length
      highMatched := (findings.filter (fun f => f.priority = .high && f.matched)).length
      mediumMatched :=
        (findings.filter (fun f => f.priority = .medium && f.matched)).length
      lowMatched := (findings.filter (fun f => f.priority = .low && f.matched)).length }
  -- Determine final status
  let statusAndError : AnalysisStatus × Option AnalysisErrorInfo :=
    if failedBatches.length = 0 then
      (.complete, none)
    else if successfulBatches.length = 0 ∧ batchResults.length > 0 then
      (.failed,
        some
          { message := "All batches failed"
            code := firstErrorCode failedBatches
            batchesFailed := some failedBatches.length
            batchesSucceeded := some 0
            failedProvisionIds :=
              some (failedBatches.flatMap (fun b => b.provisions.map Provision.provisionId)) })
    else
      (.partialResult,
        some
          { message :=
              s!"{failedBatches.length} of {batchResults.length} batches failed"
            code := firstErrorCode failedBatches
            batchesFailed := some failedBatches.length
            batchesSucceeded := some successfulBatches.length
            failedProvisionIds :=
              some (failedBatches.flatMap (fun b => b.provisions.map Provision.provisionId)) })
  -- Update contract status (use 'complete' even for partial, so user can see results)
  let contractStatus : ContractStatus :=
    if statusAndError.1 = .failed then .failed else .complete
  { findings := store₂
    status := statusAndError.1
    summaryCounts := summaryCounts
    error := statusAndError.2
    contractStatus := contractStatus }

/-! ## Risk scoring (`src/backend/src/routes/results.ts`) -/

/-- The `severityWeights` record in `calculateRiskScore` (`results.ts`). -/
def severityWeights : ProvisionPriority → Nat
  | .critical => 30
  | .high => 20
  | .medium => 10
  | .low => 5

/-- `calculateRiskScore` from `results.ts`: risk is derived from provisions
that were NOT found, weighted by priority and capped at 100. -/
def calculateRiskScore (findings : List Finding) : Nat :=
  if findings.length = 0 then 0
  else
    let notFoundFindings := findings.filter (fun f => !f.matched)
    if notFoundFindings.length = 0 then 0
    else
      let totalScore :=
        notFoundFindings.foldl (fun sum finding => sum + severityWeights finding.priority) 0
      min 100 totalScore

/-! ## String helpers (JavaScript string semantics used by the keyword sweep) -/

/-- `String.prototype.toLowerCase` (ASCII case folding suffices for the model). -/
def jsToLowerCase (s : String) : String := ⟨s.data.map Char.toLower⟩

/-- Does a character list start with a given pattern? -/
def startsWithChars : List Char → List Char → Bool
  | _, [] => true
  | [], _ :: _ => false
  | c :: cs, p :: ps => c = p && startsWithChars cs ps

/-- Substring occurrence over character lists. -/
def containsChars : List Char → List Char → Bool
  | [], pat => startsWithChars [] pat
  | c :: cs, pat => startsWithChars (c :: cs) pat || containsChars cs pat

/-- `String.prototype.includes`. -/
def jsIncludes (s sub : String) : Bool := containsChars s.data sub.data

/-! ## Pre-screening engine (`prescreening.service.ts`)

External collaborators are parameters: the vector store is a function from
(embedding, topK) to a fallible result list (`searchVectors` with the
tenant/document scope fixed for the run), the chunk store is the list of the
contract's chunks, and the embedding cache is a lookup by provision id. -/

/-- A scoped `searchVectors` call: embedding and `topK` in, either the result
list or a provider error out. -/
abbrev SearchFn : Type := List ℚ → Nat → Except String (List SearchChunksResult)

/-- JavaScript `Map.prototype.set` over candidate chunks keyed by `chunkId`:
replacing an existing key keeps its position, a new key is appended. -/
def mapSet (m : List CandidateChunk) (c : CandidateChunk) : List CandidateChunk :=
  if m.any (fun x => x.chunkId = c.chunkId) then
    m.map (fun x => if x.chunkId = c.chunkId then c else x)
  else m ++ [c]

/-- JavaScript record assignment `candidateMap[provisionId] = candidates`. -/
def recordSet (m : CandidateMap) (provisionId : String)
    (candidates : List CandidateChunk) : CandidateMap :=
  if m.any (fun e => e.1 = provisionId) then
    m.map (fun e => if e.1 = provisionId then (provisionId, candidates) else e)
  else m ++ [(provisionId, candidates)]

/-- JavaScript record read `candidateMap[provisionId]`. -/
def lookupRecord (m : CandidateMap) (provisionId : String) :
    Option (List CandidateChunk) :=
  (m.find? (fun e => e.1 = provisionId)).map (fun e => e.2)

/-- `.sort((a, b) => b.score - a.score)`: stable sort, score descending. -/
def sortByScoreDesc (l : List CandidateChunk) : List CandidateChunk :=
  l.mergeSort (fun a b => decide (b.score ≤ a.score))

/-- The canonical-embedding result loop of `findCandidatesForAllProvisions`
(lines 152–163): keep results at or above the similarity threshold. -/
def canonicalStep (allCandidates : List CandidateChunk) (result : SearchChunksResult) :
    List CandidateChunk :=
  if result.score ≥ analysisConfig.prescreening.vectorSimilarityThreshold then
    mapSet allCandidates
      { chunkId := result.chunkId
        pageStart := result.pageStart
        pageEnd := result.pageEnd
        score := result.score
        text := ""  -- Will be populated later
        matchType := .vector }
  else allCandidates

/-- The synonym/search-query result loop of `findCandidatesForAllProvisions`
(lines 174–193 and 205–223): threshold filter, then max-merge the score of an
already-seen chunk, else insert. -/
def synonymStep (allCandidates : List CandidateChunk) (result : SearchChunksResult) :
    List CandidateChunk :=
  if result.score ≥ analysisConfig.prescreening.vectorSimilarityThreshold then
    match allCandidates.find? (fun x => x.chunkId = result.chunkId) with
    | some existing =>
        -- Keep higher score
        if existing.score < result.score then
          allCandidates.map (fun x =>
            if x.chunkId = result.chunkId then { x with score := result.score } else x)
        else allCandidates
    | none =>
        allCandidates ++
          [{ chunkId := result.chunkId
             pageStart := result.pageStart
             pageEnd := result.pageEnd
             score := result.score
             text := ""
             matchType := .vector }]
  else allCandidates

/-- The per-provision body of `findCandidatesForAllProvisions`: canonical
query, synonym queries, search-query queries, then sort by score descending
and truncate to `topKPerProvision`.  A provider error on any query makes the
whole computation fail (the source has no try/catch around the awaited
`searchVectors` calls). -/
def screenProvisionVector (search : SearchFn)
    (provisionEmbeddings : ProvisionEmbeddings) : Except String (List CandidateChunk) := do
  let cfg := analysisConfig.prescreening
  let canonicalResults ← search provisionEmbeddings.canonical cfg.topKPerProvision
  let afterCanonical := canonicalResults.foldl canonicalStep []
  let afterSynonyms ← provisionEmbeddings.synonyms.foldlM
    (fun acc synonymEmbedding => do
      let synonymResults ← search synonymEmbedding cfg.topKPerSynonym
      pure (synonymResults.foldl synonymStep acc))
    afterCanonical
  let afterQueries ← provisionEmbeddings.searchQueries.foldlM
    (fun acc queryEmbedding => do
      let queryResults ← search queryEmbedding cfg.topKPerSynonym
      pure (queryResults.foldl synonymStep acc))
    afterSynonyms
  -- Convert map to array, sorted by score descending; limit to topKPerProvision
  pure ((sortByScoreDesc afterQueries).take cfg.topKPerProvision)

/-- `populateCandidateTexts` from `prescreening.service.ts`: fetch the chunk
text for every candidate that still lacks it. -/
def populateCandidateTexts (chunks : List Chunk) (candidateMap : CandidateMap) :
    CandidateMap :=
  candidateMap.map (fun e =>
    (e.1, e.2.map (fun candidate =>
      if candidate.text = "" then
        match chunks.find? (fun chunk => chunk.chunkId = candidate.chunkId) with
        | some chunk => { candidate with text := chunk.text }
        | none => candidate
      else candidate)))

/-- One iteration of the provision loop in `findCandidatesForAllProvisions`:
a provision with no cached embeddings gets an empty candidate list (lines
135–140), otherwise its vector screening result is stored. -/
def screenProvisionStep (search : SearchFn)
    (cache : String → Option ProvisionEmbeddings) (acc : CandidateMap)
    (provision : Provision) : Except String CandidateMap :=
  match cache provision.provisionId with
  | none => pure (recordSet acc provision.provisionId [])
  | some provisionEmbeddings => do
      let candidates ← screenProvisionVector search provisionEmbeddings
      pure (recordSet acc provision.provisionId candidates)

/-- `findCandidatesForAllProvisions` from `prescreening.service.ts`
(lines 121–237): vector screening for every provision, then text
population. -/
def findCandidatesForAllProvisions (search : SearchFn)
    (cache : String → Option ProvisionEmbeddings) (chunks : List Chunk)
    (provisions : List Provision) : Except String CandidateMap := do
  let candidateMap ← provisions.foldlM (screenProvisionStep search cache)
    ([] : CandidateMap)
  pure (populateCandidateTexts chunks candidateMap)

/-- The fallback branch of `getSearchPatterns`: synonyms, plus the lower-cased
canonical wording whenever it has at least one word longer than 4 characters. -/
def fallbackPatterns (provision : Provision) : List String :=
  let patterns := provision.synonyms
  let canonicalWords :=
    ((jsToLowerCase provision.canonicalWording).split (fun c => c.isWhitespace)).filter
      (fun w => w.length > 4)
  if canonicalWords.length > 0 then patterns ++ [jsToLowerCase provision.canonicalWording]
  else patterns

/-- `getSearchPatterns` from `prescreening.service.ts`. -/
def getSearchPatterns (provision : Provision) : List String :=
  match provision.exactPatterns with
  | some exactPatterns =>
      if exactPatterns.length > 0 then exactPatterns else fallbackPatterns provision
  | none => fallbackPatterns provision

/-- The patterns of `provision` matched inside `chunk` (the inner loop of
`runExactKeywordSearch`): a pattern matches when its lower-cased text occurs
in the lower-cased chunk text. -/
def keywordMatchedPatterns (patterns : List String) (chunk : Chunk) : List String :=
  let lowerText := jsToLowerCase chunk.text
  patterns.filter (fun pattern => jsIncludes lowerText (jsToLowerCase pattern))

/-- The keyword candidate built for a matching chunk in
`runExactKeywordSearch` (lines 265–274): base score `0.7` plus a `0.05` bonus
per matched pattern, with the matched pattern list and the full chunk text
attached. -/
def mkKeywordCandidate (patterns : List String) (chunk : Chunk) : CandidateChunk :=
  { chunkId := chunk.chunkId
    pageStart := chunk.pageStart
    pageEnd := chunk.pageEnd
    -- Base score + bonus per pattern
    score := 0.7 + ((keywordMatchedPatterns patterns chunk).length : ℚ) * 0.05
    text := chunk.text
    matchType := .keyword
    keywordMatches := some (keywordMatchedPatterns patterns chunk) }

/-- The per-chunk step of `runExactKeywordSearch`: a chunk with at least one
matched pattern is inserted as a keyword candidate. -/
def keywordSearchStep (patterns : List String) (candidates : List CandidateChunk)
    (chunk : Chunk) : List CandidateChunk :=
  if (keywordMatchedPatterns patterns chunk).length > 0 then
    mapSet candidates (mkKeywordCandidate patterns chunk)
  else candidates

/-- The per-provision body of `runExactKeywordSearch` (lines 250–278). -/
def keywordCandidatesForProvision (chunks : List Chunk) (provision : Provision) :
    List CandidateChunk :=
  let patterns := getSearchPatterns provision
  chunks.foldl (keywordSearchStep patterns) []

/-- `runExactKeywordSearch` from `prescreening.service.ts`. -/
def runExactKeywordSearch (chunks : List Chunk) (provisions : List Provision) :
    CandidateMap :=
  provisions.foldl
    (fun candidateMap provision =>
      recordSet candidateMap provision.provisionId
        (keywordCandidatesForProvision chunks provision))
    []

/-- The keyword-merging loop of `mergeCandidates` (lines 338–354): a chunk
already present from the vector pass becomes `both` with a `+0.1` score boost
capped at `1.0` and inherits the keyword match list; a keyword-only chunk is
inserted as is. -/
def kwMergeStep (mergedMap : List CandidateChunk) (keywordChunk : CandidateChunk) :
    List CandidateChunk :=
  match mergedMap.find? (fun x => x.chunkId = keywordChunk.chunkId) with
  | some _ =>
      -- Found in both - boost score and mark as 'both'
      mergedMap.map (fun existing =>
        if existing.chunkId = keywordChunk.chunkId then
          { existing with
              matchType := .both
              score := min 1.0 (existing.score + 0.1)  -- Boost score
              keywordMatches := keywordChunk.keywordMatches
              -- Keep the text from keyword (it's already populated)
              text :=
                if existing.text = "" ∧ keywordChunk.text ≠ "" then keywordChunk.text
                else existing.text }
        else existing)
  | none => mergedMap ++ [keywordChunk]

/-- The per-provision body of `mergeCandidates` (lines 326–357). -/
def mergeChunkLists (vectorChunks keywordChunks : List CandidateChunk) :
    List CandidateChunk :=
  let mergedMap := vectorChunks.foldl (fun m chunk => mapSet m chunk) []
  let afterKeywords := keywordChunks.foldl kwMergeStep mergedMap
  -- Sort by score and convert to array
  sortByScoreDesc afterKeywords

/-- `new Set([...keys1, ...keys2])` iterated in insertion order: first
occurrences survive, in order. -/
def dedupFirst : List String → List String
  | [] => []
  | k :: ks => k :: (dedupFirst ks).filter (fun x => x ≠ k)

/-- `mergeCandidates` from `prescreening.service.ts` (lines 314–361). -/
def mergeCandidates (vectorCandidates keywordCandidates : CandidateMap) :
    CandidateMap :=
  let allProvisionIds :=
    dedupFirst (vectorCandidates.map (fun e => e.1) ++ keywordCandidates.map (fun e => e.1))
  allProvisionIds.foldl
    (fun merged provisionId =>
      let vectorChunks := (lookupRecord vectorCandidates provisionId).getD []
      let keywordChunks := (lookupRecord keywordCandidates provisionId).getD []
      recordSet merged provisionId (mergeChunkLists vectorChunks keywordChunks))
    []

/-- `runPreScreening` from `prescreening.service.ts` (lines 406–436): vector
screening and the keyword sweep (awaited together), then merge.  An error from
the vector side rejects the whole run. -/
def runPreScreening (search : SearchFn) (cache : String → Option ProvisionEmbeddings)
    (chunks : List Chunk) (provisions : List Provision) : Except String CandidateMap := do
  let vectorCandidates ← findCandidatesForAllProvisions search cache chunks provisions
  let keywordCandidates := runExactKeywordSearch chunks provisions
  pure (mergeCandidates vectorCandidates keywordCandidates)

/-! ## Batch planning (`prescreening.service.ts` / `runner.ts`) -/

/-- The result of `partitionProvisions`. -/
structure PartitionResult where
  withCandidates : List Provision
  withoutCandidates : List Provision
deriving DecidableEq, Repr

/-- `partitionProvisions` from `prescreening.service.ts` (lines 441–460). -/
def partitionProvisions (provisions : List Provision) (candidateMap : CandidateMap) :
    PartitionResult :=
  provisions.foldl
    (fun acc provision =>
      let candidates := (lookupRecord candidateMap provision.provisionId).getD []
      if candidates.length ≥ analysisConfig.batching.minCandidatesForLLM then
        { acc with withCandidates := acc.withCandidates ++ [provision] }
      else
        { acc with withoutCandidates := acc.withoutCandidates ++ [provision] })
    ⟨[], []⟩

/-- The `byPriority` record built by `groupProvisionsByPriority` in
`runner.ts` (a `reduce` that appends each provision to its priority's list). -/
structure ProvisionsByPriority where
  critical : List Provision := []
  high : List Provision := []
  medium : List Provision := []
  low : List Provision := []

/-- `groupProvisionsByPriority` from `runner.ts` (lines 660–669). -/
def groupProvisionsByPriority (provisions : List Provision) : ProvisionsByPriority :=
  provisions.foldl
    (fun acc provision =>
      match provision.priority with
      | .critical => { acc with critical := acc.critical ++ [provision] }
      | .high => { acc with high := acc.high ++ [provision] }
      | .medium => { acc with medium := acc.medium ++ [provision] }
      | .low => { acc with low := acc.low ++ [provision] })
    ⟨[], [], [], []⟩

/-- The inner loop of `groupProvisionsForLLM`:
`for (let i = 0; i < group.length; i += maxPerBatch) batches.push(group.slice(i, i + maxPerBatch))`. -/
def splitIntoBatches (maxPerBatch : Nat) (group : List Provision) :
    List (List Provision) :=
  match group with
  | [] => []
  | _ :: rest =>
      group.take maxPerBatch :: splitIntoBatches maxPerBatch (rest.drop (maxPerBatch - 1))
termination_by group.length
decreasing_by
  simp only [List.length_drop, List.length_cons]
  omega

/-- `groupProvisionsForLLM` from `runner.ts` (lines 333–356): group by
priority, then emit the batches tier by tier in the order critical, high,
medium, low (the `candidateMap` parameter is unused, as in the source). -/
def groupProvisionsForLLM (provisions : List Provision) (candidateMap : CandidateMap) :
    List (List Provision) :=
  let maxPerBatch := analysisConfig.batching.maxProvisionsPerBatch
  let byPriority := groupProvisionsByPriority provisions
  splitIntoBatches maxPerBatch byPriority.critical ++
    splitIntoBatches maxPerBatch byPriority.high ++
      splitIntoBatches maxPerBatch byPriority.medium ++
        splitIntoBatches maxPerBatch byPriority.low

/-! ## The pass-1 → pass-2 sequencing of `runAnalysis` (`runner.ts` 240–278)

A fresh analysis starts with an empty findings collection; `runAnalysis`
partitions the provisions after pre-screening, records the auto-not-found
findings (when the feature flag is on), and only then runs the LLM batches
over the provisions that do have candidates. -/

/-- The findings collection at the moment the LLM verification pass starts:
exactly the auto-recorded `no_candidates` findings (`runAnalysis`
lines 250–254). -/
def preVerificationFindings (provisions : List Provision) (candidateMap : CandidateMap) :
    FindingStore :=
  let part := partitionProvisions provisions candidateMap
  if analysisConfig.features.enableAutoNotFound ∧ part.withoutCandidates.length > 0 then
    recordNotFoundBatch [] part.withoutCandidates
  else []

/-- The LLM batches `runAnalysis` submits (lines 261–275): none when no
provision has candidates, otherwise `groupProvisionsForLLM` over the
provisions with candidates. -/
def llmBatches (provisions : List Provision) (candidateMap : CandidateMap) :
    List (List Provision) :=
  let part := partitionProvisions provisions candidateMap
  if part.withCandidates.length = 0 then []
  else groupProvisionsForLLM part.withCandidates candidateMap

/-! ## Lemmas about the finding store -/

lemma keys_createFinding (store : FindingStore) (k : String) (f : Finding) :
    (createFinding store k f).map Prod.fst =
      if store.any (fun e => e.1 = k) then store.map Prod.fst
      else store.map Prod.fst ++ [k] := by
  unfold createFinding
  split
  · rw [List.map_map]
    refine List.map_congr_left ?_
    intro e he
    by_cases h : e.1 = k <;> simp [h]
  · simp

lemma mem_keys_createFinding {store : FindingStore} {k a : String} {f : Finding} :
    a ∈ (createFinding store k f).map Prod.fst ↔ a ∈ store.map Prod.fst ∨ a = k := by
  by_cases h : store.any (fun e => e.1 = k)
  · rw [keys_createFinding, if_pos h]
    have hk : k ∈ store.map Prod.fst := by
      rcases List.any_eq_true.mp h with ⟨e, he, hek⟩
      exact List.mem_map.mpr ⟨e, he, by simpa using hek⟩
    constructor
    · exact Or.inl
    · rintro (ha | rfl)
      · exact ha
      · exact hk
  · rw [keys_createFinding, if_neg h]
    simp

lemma nodup_keys_createFinding {store : FindingStore} {k : String} {f : Finding}
    (h : (store.map Prod.fst).Nodup) :
    ((createFinding store k f).map Prod.fst).Nodup := by
  rw [keys_createFinding]
  split
  · exact h
  · rename_i hneg
    have hk : k ∉ store.map Prod.fst := by
      intro hmem
      rcases List.mem_map.mp hmem with ⟨e, he, hek⟩
      exact hneg (List.any_eq_true.mpr ⟨e, he, by simpa using hek⟩)
    simp [List.nodup_append, h, hk]

lemma createFinding_cons_ne {e : String × Finding} {store : FindingStore}
    {k : String} {f : Finding} (h : e.1 ≠ k) :
    createFinding (e :: store) k f = e :: createFinding store k f := by
  by_cases hs : store.any (fun x => x.1 = k) <;>
    simp [createFinding, h, hs]

lemma find?_createFinding_self (store : FindingStore) (k : String) (f : Finding) :
    (createFinding store k f).find? (fun e => e.1 = k) = some (k, f) := by
  induction store with
  | nil => simp [createFinding]
  | cons e s ih =>
    by_cases h : e.1 = k
    · have hany : (e :: s).any (fun x => x.1 = k) = true := by simp [h]
      simp [createFinding, hany, h, List.find?_cons]
    · rw [createFinding_cons_ne h]
      simpa [List.find?_cons, h] using ih

lemma find?_replaceKey (s : FindingStore) (k a : String) (f : Finding) (h : a ≠ k) :
    (s.map (fun e => if e.1 = k then (k, f) else e)).find? (fun e => e.1 = a) =
      s.find? (fun e => e.1 = a) := by
  induction s with
  | nil => simp
  | cons e s ih =>
    rw [List.map_cons]
    by_cases he : e.1 = k
    · rw [if_pos he]
      have h1 : ¬ (((k, f) : String × Finding).1 = a) := fun hh => h hh.symm
      have h2 : ¬ (e.1 = a) := fun hh => h (hh.symm.trans he)
      rw [List.find?_cons_of_neg _ (by simpa using h1),
        List.find?_cons_of_neg _ (by simpa using h2)]
      exact ih
    · rw [if_neg he]
      by_cases hea : e.1 = a
      · rw [List.find?_cons_of_pos _ (by simpa using hea),
          List.find?_cons_of_pos _ (by simpa using hea)]
      · rw [List.find?_cons_of_neg _ (by simpa using hea),
          List.find?_cons_of_neg _ (by simpa using hea)]
        exact ih

lemma find?_createFinding_ne {store : FindingStore} {k a : String} {f : Finding}
    (h : a ≠ k) :
    (createFinding store k f).find? (fun e => e.1 = a) =
      store.find? (fun e => e.1 = a) := by
  unfold createFinding
  split
  · exact find?_replaceKey store k a f h
  · rw [List.find?_append]
    have hnone : ([(k, f)] : FindingStore).find? (fun e => e.1 = a) = none := by
      have h1 : ¬ (((k, f) : String × Finding).1 = a) := fun hh => h hh.symm
      rw [List.find?_cons_of_neg _ (by simpa using h1)]
      rfl
    rw [hnone]
    exact Option.or_none

/-- The common shape of `recordNotFoundBatch`, `recordErrorBatch` and
`recordMissingBatch`: one `createFinding` per provision, the finding built by
`mk`. -/
def recordBatchWith (mk : Provision → Finding) (store : FindingStore)
    (provisions : List Provision) : FindingStore :=
  provisions.foldl (fun s provision => createFinding s provision.provisionId (mk provision))
    store

lemma recordNotFoundBatch_eq (store : FindingStore) (ps : List Provision) :
    recordNotFoundBatch store ps = recordBatchWith notFoundFinding store ps := rfl

lemma recordErrorBatch_eq (store : FindingStore) (ps : List Provision) (msg : String) :
    recordErrorBatch store ps msg =
      recordBatchWith (fun p => errorFinding p msg) store ps := rfl

lemma recordMissingBatch_eq (store : FindingStore) (ps : List Provision) :
    recordMissingBatch store ps = recordBatchWith notAnalyzedFinding store ps := rfl

lemma recordBatchWith_cons (mk : Provision → Finding) (store : FindingStore)
    (q : Provision) (qs : List Provision) :
    recordBatchWith mk store (q :: qs) =
      recordBatchWith mk (createFinding store q.provisionId (mk q)) qs := rfl

lemma keys_subset_recordBatchWith (mk : Provision → Finding) (ps : List Provision)
    (store : FindingStore) {k : String} (hk : k ∈ store.map Prod.fst) :
    k ∈ (recordBatchWith mk store ps).map Prod.fst := by
  induction ps generalizing store with
  | nil => exact hk
  | cons q qs ih =>
    exact ih _ (mem_keys_createFinding.mpr (Or.inl hk))

lemma mem_keys_recordBatchWith_of_mem (mk : Provision → Finding) {ps : List Provision}
    (store : FindingStore) {p : Provision} (hp : p ∈ ps) :
    p.provisionId ∈ (recordBatchWith mk store ps).map Prod.fst := by
  induction ps generalizing store with
  | nil => cases hp
  | cons q qs ih =>
    rcases List.mem_cons.mp hp with rfl | hp'
    · exact keys_subset_recordBatchWith mk qs _
        (mem_keys_createFinding.mpr (Or.inr rfl))
    · exact ih _ hp'

lemma nodup_keys_recordBatchWith (mk : Provision → Finding) (ps : List Provision)
    (store : FindingStore) (h : (store.map Prod.fst).Nodup) :
    ((recordBatchWith mk store ps).map Prod.fst).Nodup := by
  induction ps generalizing store with
  | nil => exact h
  | cons q qs ih => exact ih _ (nodup_keys_createFinding h)

lemma find?_recordBatchWith_invariant (mk : Provision → Finding) (ps : List Provision)
    (store : FindingStore) (k : String) (P : Finding → Prop) (hP : ∀ p, P (mk p))
    (h : ∃ f, store.find? (fun e => e.1 = k) = some (k, f) ∧ P f) :
    ∃ f, (recordBatchWith mk store ps).find? (fun e => e.1 = k) = some (k, f) ∧ P f := by
  induction ps generalizing store with
  | nil => exact h
  | cons q qs ih =>
    refine ih _ ?_
    by_cases hq : q.provisionId = k
    · exact ⟨mk q, by rw [← hq]; exact find?_createFinding_self store q.provisionId (mk q),
        hP q⟩
    · rcases h with ⟨f, hf, hPf⟩
      exact ⟨f, by rw [find?_createFinding_ne (fun hh => hq hh.symm)]; exact hf, hPf⟩

lemma find?_recordBatchWith_of_mem (mk : Provision → Finding) {ps : List Provision}
    (store : FindingStore) {k : String} (P : Finding → Prop) (hP : ∀ p, P (mk p))
    (hp : ∃ p ∈ ps, p.provisionId = k) :
    ∃ f, (recordBatchWith mk store ps).find? (fun e => e.1 = k) = some (k, f) ∧ P f := by
  induction ps generalizing store with
  | nil => simp at hp
  | cons q qs ih =>
    by_cases hq : q.provisionId = k
    · refine find?_recordBatchWith_invariant mk qs _ k P hP ?_
      exact ⟨mk q, by rw [← hq]; exact find?_createFinding_self store q.provisionId (mk q),
        hP q⟩
    · rcases hp with ⟨p, hpmem, hpk⟩
      rcases List.mem_cons.mp hpmem with rfl | hpmem'
      · exact absurd hpk hq
      · exact ih _ ⟨p, hpmem', hpk⟩

lemma find?_recordBatchWith_ne (mk : Provision → Finding) (ps : List Provision)
    (store : FindingStore) (k : String) (h : ∀ p ∈ ps, p.provisionId ≠ k) :
    (recordBatchWith mk store ps).find? (fun e => e.1 = k) =
      store.find? (fun e => e.1 = k) := by
  induction ps generalizing store with
  | nil => rfl
  | cons q qs ih =>
    rw [recordBatchWith_cons, ih _ (fun p hp => h p (List.mem_cons_of_mem _ hp))]
    exact find?_createFinding_ne fun hh => h q (List.mem_cons_self q qs) hh.symm

lemma filter_key_length_eq_one {s : FindingStore} (hn : (s.map Prod.fst).Nodup)
    {k : String} (hk : k ∈ s.map Prod.fst) :
    (s.filter (fun e => e.1 = k)).length = 1 := by
  have h1 : (s.filter (fun e => e.1 = k)).length = s.countP (fun e => e.1 = k) :=
    (List.countP_eq_length_filter _ _).symm
  have h2 : s.countP (fun e => e.1 = k) = (s.map Prod.fst).countP (fun x => x = k) := by
    rw [List.countP_map]
    rfl
  have h3 : (s.map Prod.fst).countP (fun x => x = k) = (s.map Prod.fst).count k := by
    rw [List.count_eq_countP]
    refine List.countP_congr ?_
    intro a _
    by_cases h : a = k <;> simp [h]
  have hle : (s.map Prod.fst).count k ≤ 1 := List.nodup_iff_count_le_one.mp hn k
  have hpos : 0 < (s.map Prod.fst).count k := List.count_pos_iff.mpr hk
  omega

/-! ## Shape lemmas for `finalizeAnalysis` -/

lemma finalize_findings_spec (store : FindingStore) (allProvisions : List Provision)
    (batchResults : List BatchResult) :
    (finalizeAnalysis store allProvisions batchResults).findings =
      (let failedBatches := batchResults.filter (fun r => !r.success)
       let store₁ :=
         if failedBatches.length > 0 then
           recordErrorBatch store (failedBatches.flatMap (fun b => b.provisions))
             (firstErrorMessageOr failedBatches "Batch processing failed")
         else store
       let missingProvisions :=
         allProvisions.filter (fun p => !((store₁.map (fun e => e.1)).contains p.provisionId))
       if missingProvisions.length > 0 then recordMissingBatch store₁ missingProvisions
       else store₁) := rfl

lemma finalize_status_spec (store : FindingStore) (allProvisions : List Provision)
    (batchResults : List BatchResult) :
    (finalizeAnalysis store allProvisions batchResults).status =
      (if (batchResults.filter (fun r => !r.success)).length = 0 then .complete
       else if (batchResults.filter (fun r => r.success)).length = 0 ∧
           batchResults.length > 0 then .failed
       else .partialResult) := by
  simp only [finalizeAnalysis]
  split_ifs <;> rfl

lemma finalize_error_spec (store : FindingStore) (allProvisions : List Provision)
    (batchResults : List BatchResult) :
    (finalizeAnalysis store allProvisions batchResults).error =
      (if (batchResults.filter (fun r => !r.success)).length = 0 then none
       else if (batchResults.filter (fun r => r.success)).length = 0 ∧
           batchResults.length > 0 then
         some
           { message := "All batches failed"
             code := firstErrorCode (batchResults.filter (fun r => !r.success))
             batchesFailed := some (batchResults.filter (fun r => !r.success)).length
             batchesSucceeded := some 0
             failedProvisionIds :=
               some ((batchResults.filter (fun r => !r.success)).flatMap
                 (fun b => b.provisions.map Provision.provisionId)) }
       else
         some
           { message :=
               s!"{(batchResults.filter (fun r => !r.success)).length} of {batchResults.length} batches failed"
             code := firstErrorCode (batchResults.filter (fun r => !r.success))
             batchesFailed := some (batchResults.filter (fun r => !r.success)).length
             batchesSucceeded := some (batchResults.filter (fun r => r.success)).length
             failedProvisionIds :=
               some ((batchResults.filter (fun r => !r.success)).flatMap
                 (fun b => b.provisions.map Provision.provisionId)) }) := by
  simp only [finalizeAnalysis]
  split_ifs <;> rfl

lemma finalize_contract_spec (store : FindingStore) (allProvisions : List Provision)
    (batchResults : List BatchResult) :
    (finalizeAnalysis store allProvisions batchResults).contractStatus =
      (if (finalizeAnalysis store allProvisions batchResults).status = .failed then
        ContractStatus.failed
       else ContractStatus.complete) := by
  simp only [finalizeAnalysis]

lemma filter_not_success_nil_iff (batchResults : List BatchResult) :
    (batchResults.filter (fun r => !r.success)).length = 0 ↔
      ∀ r ∈ batchResults, r.success = true := by
  rw [List.length_eq_zero, List.filter_eq_nil_iff]
  constructor
  · intro h r hr
    have := h r hr
    simpa using this
  · intro h r hr
    simp [h r hr]

lemma filter_success_nil_iff (batchResults : List BatchResult) :
    (batchResults.filter (fun r => r.success)).length = 0 ↔
      ∀ r ∈ batchResults, r.success = false := by
  rw [List.length_eq_zero, List.filter_eq_nil_iff]
  constructor
  · intro h r hr
    have := h r hr
    simpa using this
  · intro h r hr
    simp [h r hr]

lemma filter_not_success_pos_iff (batchResults : List BatchResult) :
    (batchResults.filter (fun r => !r.success)).length ≠ 0 ↔
      ∃ r ∈ batchResults, r.success = false := by
  rw [Ne, List.length_eq_zero, ← Ne, ← List.length_pos, List.length_pos_iff_exists_mem]
  constructor
  · rintro ⟨r, hr⟩
    rcases List.mem_filter.mp hr with ⟨hmem, hflag⟩
    exact ⟨r, hmem, by simpa using hflag⟩
  · rintro ⟨r, hmem, hflag⟩
    exact ⟨r, List.mem_filter.mpr ⟨hmem, by simp [hflag]⟩⟩

lemma filter_success_pos_iff (batchResults : List BatchResult) :
    (batchResults.filter (fun r => r.success)).length ≠ 0 ↔
      ∃ r ∈ batchResults, r.success = true := by
  rw [Ne, List.length_eq_zero, ← Ne, ← List.length_pos, List.length_pos_iff_exists_mem]
  constructor
  · rintro ⟨r, hr⟩
    rcases List.mem_filter.mp hr with ⟨hmem, hflag⟩
    exact ⟨r, hmem, by simpa using hflag⟩
  · rintro ⟨r, hmem, hflag⟩
    exact ⟨r, List.mem_filter.mpr ⟨hmem, by simp [hflag]⟩⟩

/-! ## Sample data used by concrete witnesses and counterexamples -/

/-- A critical-priority catalog entry used in concrete instances. -/
def sampleProvision : Provision :=
  { provisionId := "p1"
    priority := .critical
    canonicalWording := "indemnification obligations"
    synonyms := ["hold harmless"]
    definition := "The subcontractor indemnifies the general contractor." }

/-- A finding for a critical provision that was not matched. -/
def sampleCriticalUnmatched : Finding :=
  { provisionId := "p1"
    priority := .critical
    matched := false
    confidence := 0
    evidenceChunkIds := []
    evidencePages := []
    evidenceExcerpts := []
    reasoningSummary := "not present" }

/-- **C9.** The risk score is computed only from findings with
`matched = false`: it is the sum of the priority weights (critical 30, high
20, medium 10, low 5) of the not-matched findings, capped at 100; when every
finding is matched (or there are none) it is 0; and when the only not-matched
finding is critical it is exactly 30. -/
theorem riskScore_unmatched_weighted_capped (findings : List Finding) :
    calculateRiskScore findings =
      min 100 (((findings.filter (fun f => !f.matched)).map
        (fun f => severityWeights f.priority)).sum) ∧
    ((∀ f ∈ findings, f.matched = true) → calculateRiskScore findings = 0) ∧
    (∀ f₀, findings.filter (fun f => !f.matched) = [f₀] → f₀.priority = .critical →
      calculateRiskScore findings = 30) := by
  have key : ∀ (l : List Finding) (n : Nat),
      l.foldl (fun sum finding => sum + severityWeights finding.priority) n =
        n + (l.map (fun f => severityWeights f.priority)).sum := by
    intro l
    induction l with
    | nil => intro n; simp
    | cons f fs ih =>
        intro n
        rw [List.foldl_cons, ih]
        simp [List.map_cons, List.sum_cons]
        omega
  have h1 : calculateRiskScore findings =
      min 100 (((findings.filter (fun f => !f.matched)).map
        (fun f => severityWeights f.priority)).sum) := by
    simp only [calculateRiskScore]
    split_ifs with h0 hnf
    · have he : findings = [] := List.length_eq_zero.mp h0
      subst he
      simp
    · have he : findings.filter (fun f => !f.matched) = [] := List.length_eq_zero.mp hnf
      rw [he]
      simp
    · rw [key]
      simp
  refine ⟨h1, ?_, ?_⟩
  · intro hall
    have he : findings.filter (fun f => !f.matched) = [] := by
      rw [List.filter_eq_nil_iff]
      intro f hf
      simp [hall f hf]
    rw [h1, he]
    simp
  · intro f₀ hf hcrit
    rw [h1, hf]
    simp [hcrit, severityWeights]

/-- Witness for C9: one not-matched critical finding scores exactly 30. -/
theorem riskScore_unmatched_weighted_capped_witness :
    calculateRiskScore [sampleCriticalUnmatched] = 30 :=
  (riskScore_unmatched_weighted_capped [sampleCriticalUnmatched]).2.2
    sampleCriticalUnmatched rfl rfl

/-- A failed batch whose provider error is a rate limit. -/
def failedRateLimitBatch : BatchResult :=
  { batchIndex := 0
    success := false
    provisions := []
    error := some { message := "rate limited", code := some "429" } }

/-- A successful batch. -/
def succeededBatch : BatchResult :=
  { batchIndex := 1
    success := true
    provisions := [] }

/-- **C3 (amended).** `finalizeAnalysis` sets the analysis status to
`complete` iff zero batches failed, to `failed` iff at least one batch ran and
all batches failed, and to `partial` otherwise; for `partial` it attaches an
error descriptor whose message is the summary `"N of M batches failed"`, whose
code is the first failed batch's error code, together with the
failed/succeeded batch counts and the failed provision ids; and the parent
contract's status is `failed` exactly when the analysis status is `failed`,
otherwise `complete`. -/
theorem finalize_status_characterization (store : FindingStore)
    (allProvisions : List Provision) (batchResults : List BatchResult) :
    ((finalizeAnalysis store allProvisions batchResults).status = .complete ↔
      ∀ r ∈ batchResults, r.success = true) ∧
    ((finalizeAnalysis store allProvisions batchResults).status = .failed ↔
      (batchResults ≠ [] ∧ ∀ r ∈ batchResults, r.success = false)) ∧
    ((finalizeAnalysis store allProvisions batchResults).status = .partialResult ↔
      ((∃ r ∈ batchResults, r.success = true) ∧ (∃ r ∈ batchResults, r.success = false))) ∧
    ((finalizeAnalysis store allProvisions batchResults).status = .partialResult →
      (finalizeAnalysis store allProvisions batchResults).error =
        some
          { message :=
              s!"{(batchResults.filter (fun r => !r.success)).length} of {batchResults.length} batches failed"
            code := firstErrorCode (batchResults.filter (fun r => !r.success))
            batchesFailed := some (batchResults.filter (fun r => !r.success)).length
            batchesSucceeded := some (batchResults.filter (fun r => r.success)).length
            failedProvisionIds :=
              some ((batchResults.filter (fun r => !r.success)).flatMap
                (fun b => b.provisions.map Provision.provisionId)) }) ∧
    ((finalizeAnalysis store allProvisions batchResults).contractStatus =
      if (finalizeAnalysis store allProvisions batchResults).status = .failed then
        ContractStatus.failed
      else ContractStatus.complete) := by
  have hst := finalize_status_spec store allProvisions batchResults
  have herr := finalize_error_spec store allProvisions batchResults
  have hct := finalize_contract_spec store allProvisions batchResults
  by_cases hf : (batchResults.filter (fun r => !r.success)).length = 0
  · rw [if_pos hf] at hst herr
    have hallsucc : ∀ r ∈ batchResults, r.success = true :=
      (filter_not_success_nil_iff batchResults).mp hf
    refine ⟨?_, ?_, ?_, ?_, hct⟩
    · rw [hst]
      exact ⟨fun _ => hallsucc, fun _ => rfl⟩
    · rw [hst]
      constructor
      · intro h
        exact absurd h (by simp)
      · rintro ⟨hne, hall⟩
        obtain ⟨r, hr⟩ := List.exists_mem_of_ne_nil batchResults hne
        have h1 := hall r hr
        have h2 := hallsucc r hr
        rw [h2] at h1
        cases h1
    · rw [hst]
      constructor
      · intro h
        exact absurd h (by simp)
      · rintro ⟨-, ⟨r, hr, hfalse⟩⟩
        have h2 := hallsucc r hr
        rw [h2] at hfalse
        cases hfalse
    · rw [hst]
      intro h
      exact absurd h (by simp)
  · have hexf : ∃ r ∈ batchResults, r.success = false :=
      (filter_not_success_pos_iff batchResults).mp hf
    have hpos : batchResults.length > 0 := by
      obtain ⟨r, hr, -⟩ := hexf
      have hne : batchResults ≠ [] := by
        intro hnil
        subst hnil
        exact (List.not_mem_nil r) hr
      exact List.length_pos.mpr hne
    by_cases hs : (batchResults.filter (fun r => r.success)).length = 0
    · have hcond : (batchResults.filter (fun r => r.success)).length = 0 ∧
          batchResults.length > 0 := ⟨hs, hpos⟩
      rw [if_neg hf, if_pos hcond] at hst herr
      have hallfail : ∀ r ∈ batchResults, r.success = false :=
        (filter_success_nil_iff batchResults).mp hs
      refine ⟨?_, ?_, ?_, ?_, hct⟩
      · rw [hst]
        constructor
        · intro h
          exact absurd h (by simp)
        · intro hall
          obtain ⟨r, hr, hfalse⟩ := hexf
          have := hall r hr
          rw [this] at hfalse
          cases hfalse
      · rw [hst]
        exact ⟨fun _ => ⟨List.length_pos.mp hpos, hallfail⟩, fun _ => rfl⟩
      · rw [hst]
        constructor
        · intro h
          exact absurd h (by simp)
        · rintro ⟨⟨r, hr, htrue⟩, -⟩
          have := hallfail r hr
          rw [this] at htrue
          cases htrue
      · rw [hst]
        intro h
        exact absurd h (by simp)
    · have hcond : ¬((batchResults.filter (fun r => r.success)).length = 0 ∧
          batchResults.length > 0) := fun hc => hs hc.1
      rw [if_neg hf, if_neg hcond] at hst herr
      have hexs : ∃ r ∈ batchResults, r.success = true :=
        (filter_success_pos_iff batchResults).mp hs
      refine ⟨?_, ?_, ?_, ?_, hct⟩
      · rw [hst]
        constructor
        · intro h
          exact absurd h (by simp)
        · intro hall
          obtain ⟨r, hr, hfalse⟩ := hexf
          have := hall r hr
          rw [this] at hfalse
          cases hfalse
      · rw [hst]
        constructor
        · intro h
          exact absurd h (by simp)
        · rintro ⟨-, hall⟩
          obtain ⟨r, hr, htrue⟩ := hexs
          have := hall r hr
          rw [this] at htrue
          cases htrue
      · rw [hst]
        exact ⟨fun _ => ⟨hexs, hexf⟩, fun _ => rfl⟩
      · intro _
        exact herr

/-- Counterexample for C3 as stated: with one rate-limited failed batch and
one successful batch, the status is `partial` and the attached error
descriptor's message is the summary `"1 of 2 batches failed"` — not the first
failed batch's message `"rate limited"` (only the code is taken from the first
failed batch). -/
theorem finalize_partial_error_message_cex :
    (finalizeAnalysis [] [] [failedRateLimitBatch, succeededBatch]).status =
      .partialResult ∧
    (finalizeAnalysis [] [] [failedRateLimitBatch, succeededBatch]).error =
      some
        { message := "1 of 2 batches failed"
          code := some "429"
          batchesFailed := some 1
          batchesSucceeded := some 1
          failedProvisionIds := some [] } ∧
    failedRateLimitBatch.error =
      some { message := "rate limited", code := some "429" } ∧
    ("1 of 2 batches failed" ≠ "rate limited") := by
  refine ⟨by decide, by decide, rfl, by decide⟩

/-- Witness for C3: the status characterization instantiated at one failed and
one successful batch. -/
theorem finalize_status_characterization_witness :
    ((finalizeAnalysis [] [] [failedRateLimitBatch, succeededBatch]).status = .complete ↔
      ∀ r ∈ [failedRateLimitBatch, succeededBatch], r.success = true) ∧
    ((finalizeAnalysis [] [] [failedRateLimitBatch, succeededBatch]).status = .failed ↔
      ([failedRateLimitBatch, succeededBatch] ≠ ([] : List BatchResult) ∧
        ∀ r ∈ [failedRateLimitBatch, succeededBatch], r.success = false)) ∧
    ((finalizeAnalysis [] [] [failedRateLimitBatch, succeededBatch]).status =
        .partialResult ↔
      ((∃ r ∈ [failedRateLimitBatch, succeededBatch], r.success = true) ∧
        (∃ r ∈ [failedRateLimitBatch, succeededBatch], r.success = false))) ∧
    ((finalizeAnalysis [] [] [failedRateLimitBatch, succeededBatch]).status =
        .partialResult →
      (finalizeAnalysis [] [] [failedRateLimitBatch, succeededBatch]).error =
        some
          { message :=
              s!"{([failedRateLimitBatch, succeededBatch].filter (fun r => !r.success)).length} of {([failedRateLimitBatch, succeededBatch] : List BatchResult).length} batches failed"
            code :=
              firstErrorCode
                ([failedRateLimitBatch, succeededBatch].filter (fun r => !r.success))
            batchesFailed :=
              some ([failedRateLimitBatch, succeededBatch].filter (fun r => !r.success)).length
            batchesSucceeded :=
              some ([failedRateLimitBatch, succeededBatch].filter (fun r => r.success)).length
            failedProvisionIds :=
              some (([failedRateLimitBatch, succeededBatch].filter (fun r => !r.success)).flatMap
                (fun b => b.provisions.map Provision.provisionId)) }) ∧
    ((finalizeAnalysis [] [] [failedRateLimitBatch, succeededBatch]).contractStatus =
      if (finalizeAnalysis [] [] [failedRateLimitBatch, succeededBatch]).status = .failed
      then ContractStatus.failed
      else ContractStatus.complete) :=
  finalize_status_characterization [] [] [failedRateLimitBatch, succeededBatch]

/-- The findings collection produced by the reconciliation steps of
`finalizeAnalysis` (error findings for failed batches, then `not_analyzed`
backfill), named so that its properties can be stated. -/
def reconciledStore (store : FindingStore) (allProvisions : List Provision)
    (batchResults : List BatchResult) : FindingStore :=
  let failedBatches := batchResults.filter (fun r => !r.success)
  let store₁ :=
    if failedBatches.length > 0 then
      recordErrorBatch store (failedBatches.flatMap (fun b => b.provisions))
        (firstErrorMessageOr failedBatches "Batch processing failed")
    else store
  let missingProvisions :=
    allProvisions.filter (fun p => !((store₁.map (fun e => e.1)).contains p.provisionId))
  if missingProvisions.length > 0 then recordMissingBatch store₁ missingProvisions
  else store₁

lemma finalize_findings_eq_reconciledStore (store : FindingStore)
    (allProvisions : List Provision) (batchResults : List BatchResult) :
    (finalizeAnalysis store allProvisions batchResults).findings =
      reconciledStore store allProvisions batchResults := rfl

lemma contains_keys_iff (store : FindingStore) (k : String) :
    (store.map (fun e => e.1)).contains k = true ↔ k ∈ store.map Prod.fst := by
  rw [show (fun (e : String × Finding) => e.1) = Prod.fst from rfl]
  exact List.elem_iff

lemma missingBackfill_nodup_and_complete (store₁ : FindingStore)
    (aps : List Provision) (h₁ : (store₁.map Prod.fst).Nodup) :
    (((if (aps.filter
          (fun p => !((store₁.map (fun e => e.1)).contains p.provisionId))).length > 0
        then recordMissingBatch store₁
          (aps.filter (fun p => !((store₁.map (fun e => e.1)).contains p.provisionId)))
        else store₁).map Prod.fst).Nodup) ∧
    ∀ p ∈ aps, p.provisionId ∈
      ((if (aps.filter
          (fun p => !((store₁.map (fun e => e.1)).contains p.provisionId))).length > 0
        then recordMissingBatch store₁
          (aps.filter (fun p => !((store₁.map (fun e => e.1)).contains p.provisionId)))
        else store₁).map Prod.fst) := by
  by_cases hmiss : (aps.filter
      (fun p => !((store₁.map (fun e => e.1)).contains p.provisionId))).length > 0
  · rw [if_pos hmiss]
    constructor
    · rw [recordMissingBatch_eq]
      exact nodup_keys_recordBatchWith _ _ _ h₁
    · intro p hp
      by_cases hmem : p.provisionId ∈ store₁.map Prod.fst
      · rw [recordMissingBatch_eq]
        exact keys_subset_recordBatchWith _ _ _ hmem
      · have hpmiss : p ∈ aps.filter
            (fun p => !((store₁.map (fun e => e.1)).contains p.provisionId)) := by
          refine List.mem_filter.mpr ⟨hp, ?_⟩
          have hcf : ¬ ((store₁.map (fun e => e.1)).contains p.provisionId = true) := by
            rw [contains_keys_iff]
            exact hmem
          simpa using hcf
        rw [recordMissingBatch_eq]
        exact mem_keys_recordBatchWith_of_mem _ _ hpmiss
  · rw [if_neg hmiss]
    refine ⟨h₁, ?_⟩
    intro p hp
    have hnil : aps.filter
        (fun p => !((store₁.map (fun e => e.1)).contains p.provisionId)) = [] :=
      List.length_eq_zero.mp (Nat.eq_zero_of_not_pos hmiss)
    have hc := List.filter_eq_nil_iff.mp hnil p hp
    rw [← contains_keys_iff]
    simpa using hc

lemma reconciledStore_nodup_and_complete (store : FindingStore)
    (allProvisions : List Provision) (batchResults : List BatchResult)
    (hstore : (store.map Prod.fst).Nodup) :
    (((reconciledStore store allProvisions batchResults).map Prod.fst).Nodup) ∧
    ∀ p ∈ allProvisions,
      p.provisionId ∈ (reconciledStore store allProvisions batchResults).map Prod.fst := by
  simp only [reconciledStore]
  by_cases hfail : (batchResults.filter (fun r => !r.success)).length > 0
  · rw [if_pos hfail]
    refine missingBackfill_nodup_and_complete _ allProvisions ?_
    rw [recordErrorBatch_eq]
    exact nodup_keys_recordBatchWith _ _ _ hstore
  · rw [if_neg hfail]
    exact missingBackfill_nodup_and_complete _ allProvisions hstore

/-- **C1.** Whenever the findings collection going into reconciliation has at
most one document per provision id (which Firestore guarantees, the document
id being the provision id), the collection left behind by `finalizeAnalysis`
still has pairwise-distinct provision ids and holds exactly one finding for
every input provision: error findings are backfilled for every provision of a
failed batch, `not_analyzed` findings for every provision still missing one,
and every write is an upsert keyed by provision id. -/
theorem finalize_exactly_one_finding_per_provision (store : FindingStore)
    (allProvisions : List Provision) (batchResults : List BatchResult)
    (hstore : (store.map Prod.fst).Nodup) :
    (((finalizeAnalysis store allProvisions batchResults).findings.map Prod.fst).Nodup) ∧
    ∀ p ∈ allProvisions,
      ((finalizeAnalysis store allProvisions batchResults).findings.filter
        (fun e => e.1 = p.provisionId)).length = 1 := by
  rw [finalize_findings_eq_reconciledStore]
  have h := reconciledStore_nodup_and_complete store allProvisions batchResults hstore
  exact ⟨h.1, fun p hp => filter_key_length_eq_one h.1 (h.2 p hp)⟩

/-- Witness for C1: starting from an empty findings collection, one provision
and no batches, reconciliation yields exactly one finding for the provision. -/
theorem finalize_exactly_one_finding_per_provision_witness :
    (((finalizeAnalysis [] [sampleProvision] []).findings.map Prod.fst).Nodup) ∧
    ∀ p ∈ [sampleProvision],
      ((finalizeAnalysis [] [sampleProvision] []).findings.filter
        (fun e => e.1 = p.provisionId)).length = 1 :=
  finalize_exactly_one_finding_per_provision [] [sampleProvision] [] (by simp)

/-- A failed batch covering `sampleProvision`. -/
def failedBatchWithSample : BatchResult :=
  { batchIndex := 0
    success := false
    provisions := [sampleProvision]
    error := some { message := "boom", code := none } }

/-- A finding as the agent's record-finding tool would have written it
mid-batch: matched with evidence. -/
def agentFoundFinding : Finding :=
  { provisionId := "p1"
    priority := .critical
    matched := true
    confidence := 0.9
    evidenceChunkIds := ["c1"]
    evidencePages := [1]
    evidenceExcerpts := ["quoted clause"]
    reasoningSummary := "found with evidence"
    screeningResult := some .analyzed_found }

/-- **C8 (amended).** Reconciliation unconditionally upserts an error Finding
(`screeningResult = error`, `matched = false`, `confidence = 0`) for every
provision of a failed batch — `recordErrorBatch` does not check whether a
finding already exists, so a finding the agent persisted during the failed
batch is overwritten rather than left unchanged (the store still holds one
finding per provision, keyed by provision id). -/
theorem finalize_failed_batch_error_finding (store : FindingStore)
    (allProvisions : List Provision) (batchResults : List BatchResult)
    (p : Provision) (b : BatchResult) (hb : b ∈ batchResults)
    (hbfail : b.success = false) (hp : p ∈ b.provisions) :
    ∃ f, (finalizeAnalysis store allProvisions batchResults).findings.find?
        (fun e => e.1 = p.provisionId) = some (p.provisionId, f) ∧
      f.matched = false ∧ f.confidence = 0 ∧ f.screeningResult = some .error := by
  rw [finalize_findings_eq_reconciledStore]
  simp only [reconciledStore]
  have hbf : b ∈ batchResults.filter (fun r => !r.success) :=
    List.mem_filter.mpr ⟨hb, by simp [hbfail]⟩
  set fb := batchResults.filter (fun r => !r.success) with hfbdef
  have hfailpos : fb.length > 0 := by
    apply List.length_pos.mpr
    intro hnil
    rw [hnil] at hbf
    exact (List.not_mem_nil b) hbf
  rw [if_pos hfailpos]
  have hpmem : p ∈ fb.flatMap (fun b => b.provisions) :=
    List.mem_flatMap.mpr ⟨b, hbf, hp⟩
  have hstep1 : ∃ f,
      (recordErrorBatch store (fb.flatMap (fun b => b.provisions))
          (firstErrorMessageOr fb "Batch processing failed")).find?
        (fun e => e.1 = p.provisionId) = some (p.provisionId, f) ∧
      (f.matched = false ∧ f.confidence = 0 ∧ f.screeningResult = some .error) := by
    rw [recordErrorBatch_eq]
    exact find?_recordBatchWith_of_mem _ _
      (fun f => f.matched = false ∧ f.confidence = 0 ∧ f.screeningResult = some .error)
      (fun q => ⟨rfl, rfl, rfl⟩) ⟨p, hpmem, rfl⟩
  obtain ⟨f, hfind, hProps⟩ := hstep1
  set store₁ := recordErrorBatch store (fb.flatMap (fun b => b.provisions))
    (firstErrorMessageOr fb "Batch processing failed") with hs₁
  by_cases hmiss : (allProvisions.filter
      (fun q => !((store₁.map (fun e => e.1)).contains q.provisionId))).length > 0
  · rw [if_pos hmiss, recordMissingBatch_eq]
    have hpin : p.provisionId ∈ store₁.map Prod.fst :=
      List.mem_map.mpr ⟨(p.provisionId, f), List.mem_of_find?_eq_some hfind, rfl⟩
    have hne : ∀ q ∈ allProvisions.filter
        (fun q => !((store₁.map (fun e => e.1)).contains q.provisionId)),
        q.provisionId ≠ p.provisionId := by
      intro q hq hqp
      have hqc := (List.mem_filter.mp hq).2
      have hct : (store₁.map (fun e => e.1)).contains q.provisionId = true := by
        rw [contains_keys_iff, hqp]
        exact hpin
      rw [hct] at hqc
      simp at hqc
    rw [find?_recordBatchWith_ne _ _ _ _ hne]
    exact ⟨f, hfind, hProps⟩
  · rw [if_neg hmiss]
    exact ⟨f, hfind, hProps⟩

/-- Witness for C8: a provision of a concrete failed batch ends with an error
finding. -/
theorem finalize_failed_batch_error_finding_witness :
    ∃ f, (finalizeAnalysis [] [sampleProvision] [failedBatchWithSample]).findings.find?
        (fun e => e.1 = sampleProvision.provisionId) =
          some (sampleProvision.provisionId, f) ∧
      f.matched = false ∧ f.confidence = 0 ∧ f.screeningResult = some .error :=
  finalize_failed_batch_error_finding [] [sampleProvision] [failedBatchWithSample]
    sampleProvision failedBatchWithSample (by simp) rfl (by simp [failedBatchWithSample])

/-- Counterexample for C8 as stated: the agent had already persisted a matched
finding for the provision during the failed batch, yet reconciliation
overwrites it with an error finding instead of leaving it unchanged. -/
theorem reconciliation_overwrites_agent_finding_cex :
    agentFoundFinding.matched = true ∧
    agentFoundFinding.screeningResult = some .analyzed_found ∧
    ((finalizeAnalysis [("p1", agentFoundFinding)] [sampleProvision]
        [failedBatchWithSample]).findings.map
      (fun e => (e.1, e.2.matched, e.2.screeningResult))) =
      [("p1", false, some .error)] :=
  ⟨rfl, rfl, by decide⟩

/-! ## Lemmas about batch planning -/

/-- The tier order critical → high → medium → low (the `priorityOrder`
ranking used by the runner). -/
def priorityRank : ProvisionPriority → Nat
  | .critical => 0
  | .high => 1
  | .medium => 2
  | .low => 3

lemma groupProvisionsByPriority_aux (l : List Provision) (acc : ProvisionsByPriority) :
    (l.foldl (fun acc provision =>
      match provision.priority with
      | .critical => { acc with critical := acc.critical ++ [provision] }
      | .high => { acc with high := acc.high ++ [provision] }
      | .medium => { acc with medium := acc.medium ++ [provision] }
      | .low => { acc with low := acc.low ++ [provision] }) acc).critical =
        acc.critical ++ l.filter (fun p => p.priority = .critical) ∧
    (l.foldl (fun acc provision =>
      match provision.priority with
      | .critical => { acc with critical := acc.critical ++ [provision] }
      | .high => { acc with high := acc.high ++ [provision] }
      | .medium => { acc with medium := acc.medium ++ [provision] }
      | .low => { acc with low := acc.low ++ [provision] }) acc).high =
        acc.high ++ l.filter (fun p => p.priority = .high) ∧
    (l.foldl (fun acc provision =>
      match provision.priority with
      | .critical => { acc with critical := acc.critical ++ [provision] }
      | .high => { acc with high := acc.high ++ [provision] }
      | .medium => { acc with medium := acc.medium ++ [provision] }
      | .low => { acc with low := acc.low ++ [provision] }) acc).medium =
        acc.medium ++ l.filter (fun p => p.priority = .medium) ∧
    (l.foldl (fun acc provision =>
      match provision.priority with
      | .critical => { acc with critical := acc.critical ++ [provision] }
      | .high => { acc with high := acc.high ++ [provision] }
      | .medium => { acc with medium := acc.medium ++ [provision] }
      | .low => { acc with low := acc.low ++ [provision] }) acc).low =
        acc.low ++ l.filter (fun p => p.priority = .low) := by
  induction l generalizing acc with
  | nil => simp
  | cons p rest ih =>
      rcases hpr : p.priority with _ | _ | _ | _
      · rcases ih { acc with critical := acc.critical ++ [p] } with ⟨ihc, ihh, ihm, ihl⟩
        simp only [List.foldl_cons, hpr, List.filter_cons]
        simp [hpr, ihc, ihh, ihm, ihl, List.append_assoc]
      · rcases ih { acc with high := acc.high ++ [p] } with ⟨ihc, ihh, ihm, ihl⟩
        simp only [List.foldl_cons, hpr, List.filter_cons]
        simp [hpr, ihc, ihh, ihm, ihl, List.append_assoc]
      · rcases ih { acc with medium := acc.medium ++ [p] } with ⟨ihc, ihh, ihm, ihl⟩
        simp only [List.foldl_cons, hpr, List.filter_cons]
        simp [hpr, ihc, ihh, ihm, ihl, List.append_assoc]
      · rcases ih { acc with low := acc.low ++ [p] } with ⟨ihc, ihh, ihm, ihl⟩
        simp only [List.foldl_cons, hpr, List.filter_cons]
        simp [hpr, ihc, ihh, ihm, ihl, List.append_assoc]

lemma groupProvisionsByPriority_spec (provisions : List Provision) :
    (groupProvisionsByPriority provisions).critical =
        provisions.filter (fun p => p.priority = .critical) ∧
    (groupProvisionsByPriority provisions).high =
        provisions.filter (fun p => p.priority = .high) ∧
    (groupProvisionsByPriority provisions).medium =
        provisions.filter (fun p => p.priority = .medium) ∧
    (groupProvisionsByPriority provisions).low =
        provisions.filter (fun p => p.priority = .low) := by
  simpa [groupProvisionsByPriority] using
    groupProvisionsByPriority_aux provisions ⟨[], [], [], []⟩

lemma splitIntoBatches_flatten {n : Nat} (hn : 1 ≤ n) (l : List Provision) :
    (splitIntoBatches n l).flatten = l := by
  induction l using splitIntoBatches.induct n with
  | case1 => simp [splitIntoBatches]
  | case2 p rest ih =>
    rw [splitIntoBatches]
    obtain ⟨m, rfl⟩ : ∃ m, n = m + 1 := ⟨n - 1, by omega⟩
    simp only [Nat.add_sub_cancel] at ih ⊢
    simp only [List.flatten_cons, List.take_succ_cons, List.cons_append, ih,
      List.take_append_drop]

lemma splitIntoBatches_length_le {n : Nat} {l : List Provision} {b : List Provision}
    (hb : b ∈ splitIntoBatches n l) : b.length ≤ n := by
  induction l using splitIntoBatches.induct n with
  | case1 => simp [splitIntoBatches] at hb
  | case2 p rest ih =>
    rw [splitIntoBatches] at hb
    rcases List.mem_cons.mp hb with rfl | hb'
    · simpa using Nat.min_le_left n _
    · exact ih hb'

lemma splitIntoBatches_ne_nil {n : Nat} (hn : 1 ≤ n) {l : List Provision}
    {b : List Provision} (hb : b ∈ splitIntoBatches n l) : b ≠ [] := by
  induction l using splitIntoBatches.induct n with
  | case1 => simp [splitIntoBatches] at hb
  | case2 p rest ih =>
    rw [splitIntoBatches] at hb
    rcases List.mem_cons.mp hb with rfl | hb'
    · obtain ⟨m, rfl⟩ : ∃ m, n = m + 1 := ⟨n - 1, by omega⟩
      simp [List.take_succ_cons]
    · exact ih hb'

lemma splitIntoBatches_mem_of_mem {n : Nat} (hn : 1 ≤ n) {l : List Provision}
    {b : List Provision} {x : Provision} (hb : b ∈ splitIntoBatches n l)
    (hx : x ∈ b) : x ∈ l := by
  rw [← splitIntoBatches_flatten hn l]
  exact List.mem_flatten.mpr ⟨b, hb, hx⟩

lemma pairwise_of_forall_mem {α : Type} {R : α → α → Prop} {l : List α}
    (h : ∀ a ∈ l, ∀ b ∈ l, R a b) : l.Pairwise R := by
  induction l with
  | nil => exact List.Pairwise.nil
  | cons a rest ih =>
    refine List.Pairwise.cons ?_ ?_
    · intro b hb
      exact h a (List.mem_cons_self _ _) b (List.mem_cons_of_mem _ hb)
    · exact ih (fun x hx y hy =>
        h x (List.mem_cons_of_mem _ hx) y (List.mem_cons_of_mem _ hy))

lemma batch_tier {n : Nat} (hn : 1 ≤ n) {l : List Provision}
    {pr : ProvisionPriority} {b : List Provision}
    (hb : b ∈ splitIntoBatches n (l.filter (fun p => p.priority = pr))) :
    ∀ p ∈ b, p.priority = pr := by
  intro p hp
  have hmem := splitIntoBatches_mem_of_mem hn hb hp
  simpa using (List.mem_filter.mp hmem).2

lemma four_filter_perm (l : List Provision) :
    (l.filter (fun p => p.priority = .critical) ++
      (l.filter (fun p => p.priority = .high) ++
        (l.filter (fun p => p.priority = .medium) ++
          l.filter (fun p => p.priority = .low)))).Perm l := by
  rw [List.perm_iff_count]
  intro a
  have hcf : ∀ (pr : ProvisionPriority), a.priority ≠ pr →
      List.count a (l.filter (fun p => p.priority = pr)) = 0 := by
    intro pr hne
    rw [List.count_eq_zero]
    intro hmem
    exact hne (by simpa using (List.mem_filter.mp hmem).2)
  have hct : ∀ (pr : ProvisionPriority), a.priority = pr →
      List.count a (l.filter (fun p => p.priority = pr)) = List.count a l := by
    intro pr he
    exact List.count_filter (by simpa using he)
  simp only [List.count_append]
  rcases ha : a.priority with _ | _ | _ | _
  · rw [hct .critical ha, hcf .high (by simp [ha]), hcf .medium (by simp [ha]),
      hcf .low (by simp [ha])]
    omega
  · rw [hcf .critical (by simp [ha]), hct .high ha, hcf .medium (by simp [ha]),
      hcf .low (by simp [ha])]
    omega
  · rw [hcf .critical (by simp [ha]), hcf .high (by simp [ha]), hct .medium ha,
      hcf .low (by simp [ha])]
    omega
  · rw [hcf .critical (by simp [ha]), hcf .high (by simp [ha]),
      hcf .medium (by simp [ha]), hct .low ha]
    omega

/-- **C5.** `groupProvisionsForLLM` emits batches in strict tier order
critical, high, medium, low (every batch holds provisions of a single tier,
and the tiers never decrease across the batch sequence); no batch is empty or
exceeds `maxProvisionsPerBatch`; and the concatenation of all batches is a
permutation of the input, so every input provision lands in exactly one
batch. -/
theorem groupProvisionsForLLM_batches_spec (provisions : List Provision)
    (candidateMap : CandidateMap) :
    ((groupProvisionsForLLM provisions candidateMap).flatten).Perm provisions ∧
    (∀ b ∈ groupProvisionsForLLM provisions candidateMap,
      b ≠ [] ∧ b.length ≤ analysisConfig.batching.maxProvisionsPerBatch ∧
      ∃ pr, ∀ p ∈ b, p.priority = pr) ∧
    (groupProvisionsForLLM provisions candidateMap).Pairwise
      (fun b₁ b₂ => ∀ p ∈ b₁, ∀ q ∈ b₂,
        priorityRank p.priority ≤ priorityRank q.priority) := by
  have hn : 1 ≤ analysisConfig.batching.maxProvisionsPerBatch := by decide
  obtain ⟨hc, hh, hm, hl⟩ := groupProvisionsByPriority_spec provisions
  have hgp : groupProvisionsForLLM provisions candidateMap =
      splitIntoBatches analysisConfig.batching.maxProvisionsPerBatch
          (provisions.filter (fun p => p.priority = .critical)) ++
        splitIntoBatches analysisConfig.batching.maxProvisionsPerBatch
          (provisions.filter (fun p => p.priority = .high)) ++
        splitIntoBatches analysisConfig.batching.maxProvisionsPerBatch
          (provisions.filter (fun p => p.priority = .medium)) ++
        splitIntoBatches analysisConfig.batching.maxProvisionsPerBatch
          (provisions.filter (fun p => p.priority = .low)) := by
    simp only [groupProvisionsForLLM, hc, hh, hm, hl]
  rw [hgp]
  refine ⟨?_, ?_, ?_⟩
  · rw [List.flatten_append, List.flatten_append, List.flatten_append,
      splitIntoBatches_flatten hn, splitIntoBatches_flatten hn,
      splitIntoBatches_flatten hn, splitIntoBatches_flatten hn]
    simp only [List.append_assoc]
    exact four_filter_perm provisions
  · intro b hb
    rcases List.mem_append.mp hb with h' | h
    case _ =>
      rcases List.mem_append.mp h' with h'' | h
      case _ =>
        rcases List.mem_append.mp h'' with h | h
        · exact ⟨splitIntoBatches_ne_nil hn h, splitIntoBatches_length_le h,
            ⟨_, batch_tier hn h⟩⟩
        · exact ⟨splitIntoBatches_ne_nil hn h, splitIntoBatches_length_le h,
            ⟨_, batch_tier hn h⟩⟩
      case _ =>
        exact ⟨splitIntoBatches_ne_nil hn h, splitIntoBatches_length_le h,
          ⟨_, batch_tier hn h⟩⟩
    case _ =>
      exact ⟨splitIntoBatches_ne_nil hn h, splitIntoBatches_length_le h,
        ⟨_, batch_tier hn h⟩⟩
  · have hpw : ∀ (pr : ProvisionPriority),
        (splitIntoBatches analysisConfig.batching.maxProvisionsPerBatch
          (provisions.filter (fun p => p.priority = pr))).Pairwise
          (fun b₁ b₂ => ∀ p ∈ b₁, ∀ q ∈ b₂,
            priorityRank p.priority ≤ priorityRank q.priority) := by
      intro pr
      refine pairwise_of_forall_mem ?_
      intro b₁ h₁ b₂ h₂ p hp q hq
      rw [batch_tier hn h₁ p hp, batch_tier hn h₂ q hq]
    have hcross : ∀ (pr₁ pr₂ : ProvisionPriority),
        priorityRank pr₁ ≤ priorityRank pr₂ →
        ∀ b₁ ∈ splitIntoBatches analysisConfig.batching.maxProvisionsPerBatch
          (provisions.filter (fun p => p.priority = pr₁)),
        ∀ b₂ ∈ splitIntoBatches analysisConfig.batching.maxProvisionsPerBatch
          (provisions.filter (fun p => p.priority = pr₂)),
        ∀ p ∈ b₁, ∀ q ∈ b₂, priorityRank p.priority ≤ priorityRank q.priority := by
      intro pr₁ pr₂ hle b₁ h₁ b₂ h₂ p hp q hq
      rw [batch_tier hn h₁ p hp, batch_tier hn h₂ q hq]
      exact hle
    rw [List.pairwise_append]
    refine ⟨?_, hpw .low, ?_⟩
    · rw [List.pairwise_append]
      refine ⟨?_, hpw .medium, ?_⟩
      · rw [List.pairwise_append]
        refine ⟨hpw .critical, hpw .high, ?_⟩
        intro b₁ h₁ b₂ h₂
        exact hcross .critical .high (by decide) b₁ h₁ b₂ h₂
      · intro b₁ h₁ b₂ h₂
        rcases List.mem_append.mp h₁ with h | h
        · exact hcross .critical .medium (by decide) b₁ h b₂ h₂
        · exact hcross .high .medium (by decide) b₁ h b₂ h₂
    · intro b₁ h₁ b₂ h₂
      rcases List.mem_append.mp h₁ with h' | h
      · rcases List.mem_append.mp h' with h | h
        · exact hcross .critical .low (by decide) b₁ h b₂ h₂
        · exact hcross .high .low (by decide) b₁ h b₂ h₂
      · exact hcross .medium .low (by decide) b₁ h b₂ h₂

/-- A high-priority catalog entry used in concrete instances. -/
def sampleHighProvision : Provision :=
  { provisionId := "p2"
    priority := .high
    canonicalWording := "waiver of subrogation"
    synonyms := ["subrogation waiver"]
    definition := "Insurers waive subrogation rights." }

/-- Witness for C5: batching instantiated at a critical and a high provision. -/
theorem groupProvisionsForLLM_batches_spec_witness :
    ((groupProvisionsForLLM [sampleProvision, sampleHighProvision] []).flatten).Perm
      [sampleProvision, sampleHighProvision] ∧
    (∀ b ∈ groupProvisionsForLLM [sampleProvision, sampleHighProvision] [],
      b ≠ [] ∧ b.length ≤ analysisConfig.batching.maxProvisionsPerBatch ∧
      ∃ pr, ∀ p ∈ b, p.priority = pr) ∧
    (groupProvisionsForLLM [sampleProvision, sampleHighProvision] []).Pairwise
      (fun b₁ b₂ => ∀ p ∈ b₁, ∀ q ∈ b₂,
        priorityRank p.priority ≤ priorityRank q.priority) :=
  groupProvisionsForLLM_batches_spec [sampleProvision, sampleHighProvision] []

lemma partitionProvisions_aux (cm : CandidateMap) (l : List Provision)
    (acc : PartitionResult) :
    (l.foldl (fun acc provision =>
      let candidates := (lookupRecord cm provision.provisionId).getD []
      if candidates.length ≥ analysisConfig.batching.minCandidatesForLLM then
        { acc with withCandidates := acc.withCandidates ++ [provision] }
      else
        { acc with withoutCandidates := acc.withoutCandidates ++ [provision] }) acc) =
      ⟨acc.withCandidates ++ l.filter (fun p =>
          ((lookupRecord cm p.provisionId).getD []).length ≥
            analysisConfig.batching.minCandidatesForLLM),
        acc.withoutCandidates ++ l.filter (fun p =>
          ¬ (((lookupRecord cm p.provisionId).getD []).length ≥
            analysisConfig.batching.minCandidatesForLLM))⟩ := by
  induction l generalizing acc with
  | nil => simp
  | cons p rest ih =>
    by_cases hc : ((lookupRecord cm p.provisionId).getD []).length ≥
        analysisConfig.batching.minCandidatesForLLM
    · simp [List.foldl_cons, ih, hc, List.filter_cons, List.append_assoc]
    · have hc' : ((lookupRecord cm p.provisionId).getD []).length <
          analysisConfig.batching.minCandidatesForLLM := by omega
      simp [List.foldl_cons, ih, hc, hc', List.filter_cons, List.append_assoc]

lemma partitionProvisions_spec (provisions : List Provision) (cm : CandidateMap) :
    partitionProvisions provisions cm =
      ⟨provisions.filter (fun p =>
          ((lookupRecord cm p.provisionId).getD []).length ≥
            analysisConfig.batching.minCandidatesForLLM),
        provisions.filter (fun p =>
          ¬ (((lookupRecord cm p.provisionId).getD []).length ≥
            analysisConfig.batching.minCandidatesForLLM))⟩ := by
  simpa [partitionProvisions] using partitionProvisions_aux cm provisions ⟨[], []⟩

lemma mem_of_mem_groupProvisionsForLLM {l : List Provision} {cm : CandidateMap}
    {b : List Provision} {x : Provision} (hb : b ∈ groupProvisionsForLLM l cm)
    (hx : x ∈ b) : x ∈ l := by
  have hn : 1 ≤ analysisConfig.batching.maxProvisionsPerBatch := by decide
  obtain ⟨hc, hh, hm, hl⟩ := groupProvisionsByPriority_spec l
  simp only [groupProvisionsForLLM, hc, hh, hm, hl] at hb
  rcases List.mem_append.mp hb with h' | h
  · rcases List.mem_append.mp h' with h'' | h
    · rcases List.mem_append.mp h'' with h | h
      · exact (List.mem_filter.mp (splitIntoBatches_mem_of_mem hn h hx)).1
      · exact (List.mem_filter.mp (splitIntoBatches_mem_of_mem hn h hx)).1
    · exact (List.mem_filter.mp (splitIntoBatches_mem_of_mem hn h hx)).1
  · exact (List.mem_filter.mp (splitIntoBatches_mem_of_mem hn h hx)).1

/-- **C4.** A provision whose pre-screening candidate list is shorter than
`minCandidatesForLLM` (default 1, i.e. zero candidates) is partitioned into
`withoutCandidates`, appears in no LLM verification batch, and — before the
verification pass runs — already has a finding with `matched = false`,
`confidence = 0` and `screeningResult = no_candidates` recorded by
`recordNotFoundBatch`. -/
theorem autoNotFound_excluded_and_recorded (provisions : List Provision)
    (candidateMap : CandidateMap) (p : Provision) (hp : p ∈ provisions)
    (hlt : ((lookupRecord candidateMap p.provisionId).getD []).length <
      analysisConfig.batching.minCandidatesForLLM) :
    p ∈ (partitionProvisions provisions candidateMap).withoutCandidates ∧
    (∀ b ∈ llmBatches provisions candidateMap, p ∉ b) ∧
    ∃ f, (preVerificationFindings provisions candidateMap).find?
        (fun e => e.1 = p.provisionId) = some (p.provisionId, f) ∧
      f.matched = false ∧ f.confidence = 0 ∧
      f.screeningResult = some .no_candidates := by
  have hnot : ¬ (((lookupRecord candidateMap p.provisionId).getD []).length ≥
      analysisConfig.batching.minCandidatesForLLM) := by omega
  have hwo : p ∈ (partitionProvisions provisions candidateMap).withoutCandidates := by
    rw [partitionProvisions_spec]
    exact List.mem_filter.mpr ⟨hp, by simpa using hnot⟩
  refine ⟨hwo, ?_, ?_⟩
  · intro b hb hpb
    simp only [llmBatches] at hb
    by_cases hz : (partitionProvisions provisions candidateMap).withCandidates.length = 0
    · rw [if_pos hz] at hb
      cases hb
    · rw [if_neg hz] at hb
      have hmem := mem_of_mem_groupProvisionsForLLM hb hpb
      rw [partitionProvisions_spec] at hmem
      have hcond := (List.mem_filter.mp hmem).2
      exact hnot (by simpa using hcond)
  · simp only [preVerificationFindings]
    have hwpos : (partitionProvisions provisions candidateMap).withoutCandidates.length
        > 0 := by
      apply List.length_pos.mpr
      intro hnil
      rw [hnil] at hwo
      exact (List.not_mem_nil p) hwo
    rw [if_pos ⟨rfl, hwpos⟩, recordNotFoundBatch_eq]
    exact find?_recordBatchWith_of_mem _ _
      (fun f => f.matched = false ∧ f.confidence = 0 ∧
        f.screeningResult = some .no_candidates)
      (fun q => ⟨rfl, rfl, rfl⟩) ⟨p, hwo, rfl⟩

/-- Witness for C4: a provision with an empty candidate map. -/
theorem autoNotFound_excluded_and_recorded_witness :
    sampleProvision ∈ (partitionProvisions [sampleProvision] []).withoutCandidates ∧
    (∀ b ∈ llmBatches [sampleProvision] [], sampleProvision ∉ b) ∧
    ∃ f, (preVerificationFindings [sampleProvision] []).find?
        (fun e => e.1 = sampleProvision.provisionId) =
          some (sampleProvision.provisionId, f) ∧
      f.matched = false ∧ f.confidence = 0 ∧
      f.screeningResult = some .no_candidates :=
  autoNotFound_excluded_and_recorded [sampleProvision] [] sampleProvision
    (by simp) (by decide)

/-! ## Lemmas about candidate maps keyed by chunk id -/

lemma mapSet_of_not_mem {m : List CandidateChunk} {c : CandidateChunk}
    (h : ∀ x ∈ m, x.chunkId ≠ c.chunkId) : mapSet m c = m ++ [c] := by
  unfold mapSet
  rw [if_neg]
  intro hany
  rcases List.any_eq_true.mp hany with ⟨x, hx, hxc⟩
  exact h x hx (by simpa using hxc)

lemma mem_mapSet {m : List CandidateChunk} {c x : CandidateChunk}
    (hx : x ∈ mapSet m c) : x ∈ m ∨ x = c := by
  unfold mapSet at hx
  split at hx
  · rcases List.mem_map.mp hx with ⟨y, hy, hyx⟩
    by_cases hyc : y.chunkId = c.chunkId
    · right
      rw [← hyx]
      simp [hyc]
    · left
      rw [← hyx]
      simpa [hyc] using hy
  · rcases List.mem_append.mp hx with h | h
    · exact Or.inl h
    · exact Or.inr (by simpa using h)

lemma mapSet_mem_of_ne {m : List CandidateChunk} {c x : CandidateChunk}
    (hx : x ∈ m) (hne : x.chunkId ≠ c.chunkId) : x ∈ mapSet m c := by
  unfold mapSet
  split
  · exact List.mem_map.mpr ⟨x, hx, by simp [hne]⟩
  · exact List.mem_append_left _ hx

lemma mapSet_ids_nodup {m : List CandidateChunk} {c : CandidateChunk}
    (h : (m.map (fun x => x.chunkId)).Nodup) :
    ((mapSet m c).map (fun x => x.chunkId)).Nodup := by
  unfold mapSet
  split
  · rw [List.map_map]
    have : ((fun x => x.chunkId) ∘ fun x => if x.chunkId = c.chunkId then c else x) =
        fun (x : CandidateChunk) => x.chunkId := by
      funext x
      by_cases hx : x.chunkId = c.chunkId <;> simp [hx]
    rw [this]
    exact h
  · rename_i hneg
    have hc : c.chunkId ∉ m.map (fun x => x.chunkId) := by
      intro hmem
      rcases List.mem_map.mp hmem with ⟨x, hx, hxc⟩
      exact hneg (List.any_eq_true.mpr ⟨x, hx, by simpa using hxc⟩)
    simp [List.nodup_append, h, hc]

lemma foldl_mapSet_eq_append :
    ∀ (l : List CandidateChunk) (acc : List CandidateChunk),
    (∀ x ∈ acc, ∀ y ∈ l, x.chunkId ≠ y.chunkId) →
    ((l.map (fun c => c.chunkId)).Nodup) →
    l.foldl (fun m chunk => mapSet m chunk) acc = acc ++ l := by
  intro l
  induction l with
  | nil => intro acc _ _; simp
  | cons c rest ih =>
    intro acc hd hnd
    have hnd' : c.chunkId ∉ rest.map (fun c => c.chunkId) ∧
        (rest.map (fun c => c.chunkId)).Nodup := by
      rw [List.map_cons] at hnd
      exact List.nodup_cons.mp hnd
    rw [List.foldl_cons,
      mapSet_of_not_mem (fun x hx => hd x hx c (List.mem_cons_self _ _)), ih _ ?_ hnd'.2]
    · simp
    · intro x hx y hy
      rcases List.mem_append.mp hx with hxa | hxc
      · exact hd x hxa y (List.mem_cons_of_mem _ hy)
      · have hxeq : x = c := by simpa using hxc
        subst hxeq
        intro heq
        exact hnd'.1 (heq ▸ List.mem_map_of_mem _ hy)

lemma kwMergeStep_append_of_none {m : List CandidateChunk} {kw : CandidateChunk}
    (h : m.find? (fun x => x.chunkId = kw.chunkId) = none) :
    kwMergeStep m kw = m ++ [kw] := by
  unfold kwMergeStep
  rw [h]

lemma kwMergeStep_mem_of_ne {m : List CandidateChunk} {kw c : CandidateChunk}
    (hc : c ∈ m) (hne : c.chunkId ≠ kw.chunkId) : c ∈ kwMergeStep m kw := by
  unfold kwMergeStep
  cases hfind : m.find? (fun x => x.chunkId = kw.chunkId) with
  | none => exact List.mem_append_left _ hc
  | some y => exact List.mem_map.mpr ⟨c, hc, by simp [hne]⟩

lemma kwfold_mem_of_ne {kws : List CandidateChunk} {m : List CandidateChunk}
    {c : CandidateChunk} (hc : c ∈ m)
    (h : ∀ kw ∈ kws, kw.chunkId ≠ c.chunkId) : c ∈ kws.foldl kwMergeStep m := by
  induction kws generalizing m with
  | nil => exact hc
  | cons kw rest ih =>
    rw [List.foldl_cons]
    refine ih ?_ (fun k hk => h k (List.mem_cons_of_mem _ hk))
    exact kwMergeStep_mem_of_ne hc
      (fun hh => h kw (List.mem_cons_self _ _) hh.symm)

lemma kwMergeStep_both {m : List CandidateChunk} {kw c : CandidateChunk}
    (hc : c ∈ m) (hid : kw.chunkId = c.chunkId) :
    { c with matchType := .both
             score := min 1.0 (c.score + 0.1)
             keywordMatches := kw.keywordMatches
             text := if c.text = "" ∧ kw.text ≠ "" then kw.text else c.text } ∈
      kwMergeStep m kw := by
  unfold kwMergeStep
  cases hf : m.find? (fun x => x.chunkId = kw.chunkId) with
  | none =>
    have hsome : (m.find? (fun x => x.chunkId = kw.chunkId)).isSome :=
      List.find?_isSome.mpr ⟨c, hc, by simp [hid.symm]⟩
    rw [hf] at hsome
    cases hsome
  | some y => exact List.mem_map.mpr ⟨c, hc, by simp [hid.symm]⟩

lemma kwMergeStep_ids {m : List CandidateChunk} {kw x : CandidateChunk}
    (hx : x ∈ kwMergeStep m kw) :
    x.chunkId ∈ m.map (fun c => c.chunkId) ∨ x.chunkId = kw.chunkId := by
  unfold kwMergeStep at hx
  split at hx
  · rcases List.mem_map.mp hx with ⟨a, ha, rfl⟩
    left
    by_cases h : a.chunkId = kw.chunkId <;>
      simpa [h] using List.mem_map_of_mem (fun c => c.chunkId) ha
  · rcases List.mem_append.mp hx with h | h
    · exact Or.inl (List.mem_map_of_mem _ h)
    · right
      have : x = kw := by simpa using h
      rw [this]

lemma kwMergeStep_ids_subset {m : List CandidateChunk} {kw : CandidateChunk}
    {i : String} (hi : i ∈ (kwMergeStep m kw).map (fun c => c.chunkId)) :
    i ∈ m.map (fun c => c.chunkId) ∨ i = kw.chunkId := by
  rcases List.mem_map.mp hi with ⟨x, hx, rfl⟩
  exact kwMergeStep_ids hx

lemma kwfold_ids {kws : List CandidateChunk} {m : List CandidateChunk}
    {x : CandidateChunk} (hx : x ∈ kws.foldl kwMergeStep m) :
    x.chunkId ∈ m.map (fun c => c.chunkId) ∨
      x.chunkId ∈ kws.map (fun c => c.chunkId) := by
  induction kws generalizing m with
  | nil => exact Or.inl (List.mem_map_of_mem _ hx)
  | cons kw rest ih =>
    rw [List.foldl_cons] at hx
    rcases ih hx with h | h
    · rcases kwMergeStep_ids_subset h with h' | h'
      · exact Or.inl h'
      · exact Or.inr (by simp [h'])
    · exact Or.inr (List.mem_cons_of_mem _ h)

lemma sortByScoreDesc_perm (l : List CandidateChunk) : (sortByScoreDesc l).Perm l :=
  List.mergeSort_perm l _

lemma sortByScoreDesc_length (l : List CandidateChunk) :
    (sortByScoreDesc l).length = l.length :=
  List.length_mergeSort l

lemma sortByScoreDesc_sorted (l : List CandidateChunk) :
    (sortByScoreDesc l).Pairwise (fun a b => b.score ≤ a.score) := by
  have h := @List.sorted_mergeSort CandidateChunk
    (fun a b => decide (b.score ≤ a.score))
    (fun a b c hab hbc => by
      simp only [decide_eq_true_eq] at hab hbc ⊢
      exact le_trans hbc hab)
    (fun a b => by
      rcases le_total b.score a.score with h | h <;> simp [h])
    l
  exact h.imp (fun hab => by simpa using hab)

lemma mergeChunkLists_both {vc kcs : List CandidateChunk} {c kw : CandidateChunk}
    (hnv : (vc.map (fun x => x.chunkId)).Nodup)
    (hnk : (kcs.map (fun x => x.chunkId)).Nodup)
    (hc : c ∈ vc) (hkw : kw ∈ kcs) (hid : kw.chunkId = c.chunkId) :
    { c with matchType := .both
             score := min 1.0 (c.score + 0.1)
             keywordMatches := kw.keywordMatches
             text := if c.text = "" ∧ kw.text ≠ "" then kw.text else c.text } ∈
      mergeChunkLists vc kcs := by
  unfold mergeChunkLists
  rw [foldl_mapSet_eq_append vc [] (by simp) hnv, List.nil_append]
  refine (sortByScoreDesc_perm _).mem_iff.mpr ?_
  obtain ⟨s, t, rfl⟩ := List.append_of_mem hkw
  have hmapids : ((s ++ kw :: t).map (fun x => x.chunkId)) =
      s.map (fun x => x.chunkId) ++ kw.chunkId :: t.map (fun x => x.chunkId) := by
    simp
  rw [hmapids] at hnk
  rcases List.nodup_append.mp hnk with ⟨hs, hkt, hdisj⟩
  have hkwt : kw.chunkId ∉ t.map (fun x => x.chunkId) := (List.nodup_cons.mp hkt).1
  have hsk : ∀ x ∈ s, x.chunkId ≠ kw.chunkId := by
    intro x hx heq
    exact hdisj (heq ▸ List.mem_map_of_mem _ hx) (List.mem_cons_self _ _)
  have htk : ∀ x ∈ t, x.chunkId ≠ kw.chunkId := by
    intro x hx heq
    exact hkwt (heq ▸ List.mem_map_of_mem _ hx)
  rw [List.foldl_append, List.foldl_cons]
  have hcs : c ∈ s.foldl kwMergeStep vc :=
    kwfold_mem_of_ne hc (fun k hk => (hid ▸ hsk k hk))
  have hboth := kwMergeStep_both hcs hid
  refine kwfold_mem_of_ne hboth ?_
  intro k hk
  show k.chunkId ≠ c.chunkId
  exact hid ▸ htk k hk

lemma mergeChunkLists_keyword_only {vc kcs : List CandidateChunk} {kw : CandidateChunk}
    (hnv : (vc.map (fun x => x.chunkId)).Nodup)
    (hnk : (kcs.map (fun x => x.chunkId)).Nodup)
    (hkw : kw ∈ kcs) (hfresh : ∀ v ∈ vc, v.chunkId ≠ kw.chunkId) :
    kw ∈ mergeChunkLists vc kcs := by
  unfold mergeChunkLists
  rw [foldl_mapSet_eq_append vc [] (by simp) hnv, List.nil_append]
  refine (sortByScoreDesc_perm _).mem_iff.mpr ?_
  obtain ⟨s, t, rfl⟩ := List.append_of_mem hkw
  have hmapids : ((s ++ kw :: t).map (fun x => x.chunkId)) =
      s.map (fun x => x.chunkId) ++ kw.chunkId :: t.map (fun x => x.chunkId) := by
    simp
  rw [hmapids] at hnk
  rcases List.nodup_append.mp hnk with ⟨hs, hkt, hdisj⟩
  have hkwt : kw.chunkId ∉ t.map (fun x => x.chunkId) := (List.nodup_cons.mp hkt).1
  have hsk : ∀ x ∈ s, x.chunkId ≠ kw.chunkId := by
    intro x hx heq
    exact hdisj (heq ▸ List.mem_map_of_mem _ hx) (List.mem_cons_self _ _)
  have htk : ∀ x ∈ t, x.chunkId ≠ kw.chunkId := by
    intro x hx heq
    exact hkwt (heq ▸ List.mem_map_of_mem _ hx)
  rw [List.foldl_append, List.foldl_cons]
  have hids : ∀ x ∈ s.foldl kwMergeStep vc, x.chunkId ≠ kw.chunkId := by
    intro x hx heq
    rcases kwfold_ids hx with h | h
    · rcases List.mem_map.mp h with ⟨v, hv, hvid⟩
      exact hfresh v hv (hvid.trans heq)
    · rcases List.mem_map.mp h with ⟨y, hy, hyid⟩
      exact hsk y hy (hyid.trans heq)
  have hnone : (s.foldl kwMergeStep vc).find? (fun x => x.chunkId = kw.chunkId)
      = none :=
    List.find?_eq_none.mpr (fun x hx => by simpa using hids x hx)
  rw [kwMergeStep_append_of_none hnone]
  exact kwfold_mem_of_ne
    (List.mem_append_right _ (List.mem_singleton.mpr rfl)) htk

lemma dedupFirst_nodup : ∀ (l : List String), (dedupFirst l).Nodup := by
  intro l
  induction l with
  | nil => exact List.nodup_nil
  | cons k ks ih =>
    rw [dedupFirst]
    refine List.nodup_cons.mpr ⟨?_, List.Nodup.filter _ ih⟩
    intro hmem
    have := (List.mem_filter.mp hmem).2
    simp at this

lemma mem_dedupFirst : ∀ {l : List String} {a : String}, a ∈ dedupFirst l ↔ a ∈ l := by
  intro l
  induction l with
  | nil => simp [dedupFirst]
  | cons k ks ih =>
    intro a
    rw [dedupFirst]
    constructor
    · intro h
      rcases List.mem_cons.mp h with rfl | h'
      · exact List.mem_cons_self _ _
      · exact List.mem_cons_of_mem _ (ih.mp (List.mem_filter.mp h').1)
    · intro h
      rcases List.mem_cons.mp h with rfl | h'
      · exact List.mem_cons_self _ _
      · by_cases ha : a = k
        · exact ha ▸ List.mem_cons_self _ _
        · exact List.mem_cons_of_mem _
            (List.mem_filter.mpr ⟨ih.mpr h', by simpa using ha⟩)

lemma recordSet_of_not_mem {m : CandidateMap} {pid : String}
    {cands : List CandidateChunk} (h : ∀ e ∈ m, e.1 ≠ pid) :
    recordSet m pid cands = m ++ [(pid, cands)] := by
  unfold recordSet
  rw [if_neg]
  intro hany
  rcases List.any_eq_true.mp hany with ⟨e, he, hek⟩
  exact h e he (by simpa using hek)

lemma foldl_recordSet_map (F : String → List CandidateChunk) :
    ∀ (ids : List String) (acc : CandidateMap),
    (∀ pid ∈ ids, ∀ e ∈ acc, e.1 ≠ pid) → ids.Nodup →
    ids.foldl (fun merged provisionId => recordSet merged provisionId (F provisionId))
      acc = acc ++ ids.map (fun pid => (pid, F pid)) := by
  intro ids
  induction ids with
  | nil => intro acc _ _; simp
  | cons k ks ih =>
    intro acc hd hnd
    have hnd' := List.nodup_cons.mp hnd
    rw [List.foldl_cons, recordSet_of_not_mem
      (fun e he => hd k (List.mem_cons_self _ _) e he), ih _ ?_ hnd'.2]
    · simp
    · intro pid hpid e he
      rcases List.mem_append.mp he with hea | hek
      · exact hd pid (List.mem_cons_of_mem _ hpid) e hea
      · have he' : e = (k, F k) := by simpa using hek
        subst he'
        intro heq
        have hkp : k = pid := heq
        exact hnd'.1 (hkp ▸ hpid)

lemma mergeCandidates_eq_map (vm km : CandidateMap) :
    mergeCandidates vm km =
      (dedupFirst (vm.map (fun e => e.1) ++ km.map (fun e => e.1))).map
        (fun pid => (pid, mergeChunkLists ((lookupRecord vm pid).getD [])
          ((lookupRecord km pid).getD []))) := by
  unfold mergeCandidates
  rw [foldl_recordSet_map _ _ [] (by simp) (dedupFirst_nodup _)]
  simp

lemma lookupRecord_map_self {ids : List String} {F : String → List CandidateChunk}
    {pid : String} (hpid : pid ∈ ids) :
    lookupRecord (ids.map (fun pid => (pid, F pid))) pid = some (F pid) := by
  induction ids with
  | nil => cases hpid
  | cons k ks ih =>
    by_cases hk : k = pid
    · subst hk
      simp [lookupRecord, List.find?_cons]
    · rcases List.mem_cons.mp hpid with rfl | hpid'
      · exact absurd rfl hk
      · rw [List.map_cons]
        unfold lookupRecord
        rw [List.find?_cons_of_neg _ (by simpa using hk)]
        exact ih hpid'

lemma mergeCandidates_lookup (vm km : CandidateMap) (pid : String)
    (h : pid ∈ vm.map (fun e => e.1) ∨ pid ∈ km.map (fun e => e.1)) :
    lookupRecord (mergeCandidates vm km) pid =
      some (mergeChunkLists ((lookupRecord vm pid).getD [])
        ((lookupRecord km pid).getD [])) := by
  rw [mergeCandidates_eq_map]
  exact lookupRecord_map_self (mem_dedupFirst.mpr (List.mem_append.mpr h))

lemma sortByScoreDesc_singleton (x : CandidateChunk) : sortByScoreDesc [x] = [x] := by
  unfold sortByScoreDesc
  exact List.mergeSort_singleton x

/-- A vector candidate with similarity score 0.7. -/
def vecChunk07 : CandidateChunk :=
  { chunkId := "c1"
    pageStart := 1
    pageEnd := 1
    score := 0.7
    text := ""
    matchType := .vector }

/-- A keyword candidate for the same chunk with keyword score 0.75. -/
def kwChunk075 : CandidateChunk :=
  { chunkId := "c1"
    pageStart := 1
    pageEnd := 1
    score := 0.75
    text := "indemnify and hold harmless"
    matchType := .keyword
    keywordMatches := some ["hold harmless"] }

/-- **C2 (amended).** In `mergeCandidates`, a chunk that appears in both the
vector-candidate map and the keyword-candidate map for a provision yields a
merged candidate with `matchType = both`, score
`min(1.0, vectorScore + 0.10)` — the `+0.1` boost is applied to the
vector-side score, not the keyword score — and the keyword match list
inherited from the keyword candidate. -/
theorem mergeCandidates_both_match (vm km : CandidateMap) (pid : String)
    (vcs kcs : List CandidateChunk) (c kw : CandidateChunk)
    (hv : lookupRecord vm pid = some vcs) (hk : lookupRecord km pid = some kcs)
    (hc : c ∈ vcs) (hkw : kw ∈ kcs) (hid : kw.chunkId = c.chunkId)
    (hnv : (vcs.map (fun x => x.chunkId)).Nodup)
    (hnk : (kcs.map (fun x => x.chunkId)).Nodup) :
    ∃ d ∈ (lookupRecord (mergeCandidates vm km) pid).getD [],
      d.chunkId = c.chunkId ∧ d.matchType = .both ∧
      d.score = min 1.0 (c.score + 0.1) ∧ d.keywordMatches = kw.keywordMatches := by
  have hpid : pid ∈ vm.map (fun e => e.1) := by
    unfold lookupRecord at hv
    rcases Option.map_eq_some'.mp hv with ⟨e, hfind, -⟩
    have he1 : e.1 = pid := by simpa using List.find?_some hfind
    exact List.mem_map.mpr ⟨e, List.mem_of_find?_eq_some hfind, he1⟩
  rw [mergeCandidates_lookup vm km pid (Or.inl hpid), hv, hk]
  simp only [Option.getD_some]
  exact ⟨_, mergeChunkLists_both hnv hnk hc hkw hid, rfl, rfl, rfl, rfl⟩

/-- Witness for C2: concrete singleton maps with a shared chunk. -/
theorem mergeCandidates_both_match_witness :
    ∃ d ∈ (lookupRecord (mergeCandidates [("p1", [vecChunk07])]
        [("p1", [kwChunk075])]) "p1").getD [],
      d.chunkId = vecChunk07.chunkId ∧ d.matchType = .both ∧
      d.score = min 1.0 (vecChunk07.score + 0.1) ∧
      d.keywordMatches = kwChunk075.keywordMatches :=
  mergeCandidates_both_match [("p1", [vecChunk07])] [("p1", [kwChunk075])] "p1"
    [vecChunk07] [kwChunk075] vecChunk07 kwChunk075 rfl rfl
    (List.mem_singleton.mpr rfl) (List.mem_singleton.mpr rfl) rfl
    (by simp) (by simp)

/-- Counterexample for C2 as stated: vector score 0.7 and keyword score 0.75
merge to `min(1.0, 0.7 + 0.1) = 0.8`, not to `min(1.0, 0.75 + 0.1) = 0.85`
as the claim asserts. -/
theorem mergeCandidates_keyword_score_cex :
    ((lookupRecord (mergeCandidates [("p1", [vecChunk07])] [("p1", [kwChunk075])])
        "p1").getD []).map (fun d => (d.matchType, d.score)) =
      [(CandidateMatchType.both, min 1.0 ((0.7 : ℚ) + 0.1))] ∧
    min 1.0 ((0.7 : ℚ) + 0.1) = 0.8 ∧
    min 1.0 ((0.75 : ℚ) + 0.1) = 0.85 ∧
    (0.8 : ℚ) ≠ 0.85 := by
  refine ⟨?_, ?_, ?_, by norm_num⟩
  · rw [mergeCandidates_lookup _ _ "p1" (Or.inl (by simp))]
    have h1 : lookupRecord [("p1", [vecChunk07])] "p1" = some [vecChunk07] := rfl
    have h2 : lookupRecord [("p1", [kwChunk075])] "p1" = some [kwChunk075] := rfl
    rw [h1, h2]
    simp only [Option.getD_some]
    have h3 : mergeChunkLists [vecChunk07] [kwChunk075] =
        sortByScoreDesc
          [{ vecChunk07 with
              matchType := .both
              score := min 1.0 (vecChunk07.score + 0.1)
              keywordMatches := kwChunk075.keywordMatches
              text := kwChunk075.text }] := rfl
    rw [h3, sortByScoreDesc_singleton]
    simp [vecChunk07, kwChunk075]
  · have h : (0.7 : ℚ) + 0.1 = 0.8 := by norm_num
    rw [h]
    exact min_eq_right (by norm_num)
  · have h : (0.75 : ℚ) + 0.1 = 0.85 := by norm_num
    rw [h]
    exact min_eq_right (by norm_num)

lemma keywordSearchStep_ids {patterns : List String} {m : List CandidateChunk}
    {ch : Chunk} {x : CandidateChunk} (hx : x ∈ keywordSearchStep patterns m ch) :
    x ∈ m ∨ x.chunkId = ch.chunkId := by
  unfold keywordSearchStep at hx
  split at hx
  · rcases mem_mapSet hx with h | h
    · exact Or.inl h
    · exact Or.inr (by rw [h]; rfl)
  · exact Or.inl hx

lemma keywordSearchStep_mem_of_ne {patterns : List String} {m : List CandidateChunk}
    {ch : Chunk} {x : CandidateChunk} (hx : x ∈ m) (hne : x.chunkId ≠ ch.chunkId) :
    x ∈ keywordSearchStep patterns m ch := by
  unfold keywordSearchStep
  split
  · exact mapSet_mem_of_ne hx hne
  · exact hx

lemma kwsearch_fold_mem_of_ne {patterns : List String} {l : List Chunk}
    {x : CandidateChunk} (h : ∀ chz ∈ l, chz.chunkId ≠ x.chunkId) :
    ∀ {acc : List CandidateChunk}, x ∈ acc →
      x ∈ l.foldl (keywordSearchStep patterns) acc := by
  induction l with
  | nil => intro acc hx; exact hx
  | cons chz rest ih =>
    intro acc hx
    rw [List.foldl_cons]
    refine ih (fun cz hcz => h cz (List.mem_cons_of_mem _ hcz)) ?_
    exact keywordSearchStep_mem_of_ne hx
      (fun heq => h chz (List.mem_cons_self _ _) heq.symm)

lemma kwsearch_fold_ids {patterns : List String} {l : List Chunk} :
    ∀ {acc : List CandidateChunk} {x : CandidateChunk},
    x ∈ l.foldl (keywordSearchStep patterns) acc →
      x ∈ acc ∨ x.chunkId ∈ l.map (fun c => c.chunkId) := by
  induction l with
  | nil => intro acc x hx; exact Or.inl hx
  | cons chz rest ih =>
    intro acc x hx
    rw [List.foldl_cons] at hx
    rcases ih hx with h | h
    · rcases keywordSearchStep_ids h with h' | h'
      · exact Or.inl h'
      · exact Or.inr (by simp [h'])
    · exact Or.inr (List.mem_cons_of_mem _ h)

lemma keywordCandidates_mem {chunks : List Chunk} {provision : Provision} {ch : Chunk}
    (hch : ch ∈ chunks) (hn : (chunks.map (fun c => c.chunkId)).Nodup)
    (hmatch : 0 < (keywordMatchedPatterns (getSearchPatterns provision) ch).length) :
    mkKeywordCandidate (getSearchPatterns provision) ch ∈
      keywordCandidatesForProvision chunks provision := by
  unfold keywordCandidatesForProvision
  obtain ⟨s, t, rfl⟩ := List.append_of_mem hch
  have hmapids : (s ++ ch :: t).map (fun c => c.chunkId) =
      s.map (fun c => c.chunkId) ++ ch.chunkId :: t.map (fun c => c.chunkId) := by
    simp
  rw [hmapids] at hn
  rcases List.nodup_append.mp hn with ⟨hs, hct, hdisj⟩
  have hcht : ch.chunkId ∉ t.map (fun c => c.chunkId) := (List.nodup_cons.mp hct).1
  have hsk : ∀ x ∈ s, x.chunkId ≠ ch.chunkId := by
    intro x hx heq
    exact hdisj (heq ▸ List.mem_map_of_mem _ hx) (List.mem_cons_self _ _)
  have htk : ∀ x ∈ t, x.chunkId ≠ ch.chunkId := by
    intro x hx heq
    exact hcht (heq ▸ List.mem_map_of_mem _ hx)
  rw [List.foldl_append, List.foldl_cons]
  have hfold_ids : ∀ x ∈ s.foldl (keywordSearchStep (getSearchPatterns provision)) [],
      x.chunkId ≠ ch.chunkId := by
    intro x hx heq
    rcases kwsearch_fold_ids hx with h | h
    · cases h
    · rcases List.mem_map.mp h with ⟨y, hy, hyid⟩
      exact hsk y hy (hyid.trans heq)
  have hstep : keywordSearchStep (getSearchPatterns provision)
      (s.foldl (keywordSearchStep (getSearchPatterns provision)) []) ch =
      (s.foldl (keywordSearchStep (getSearchPatterns provision)) []) ++
        [mkKeywordCandidate (getSearchPatterns provision) ch] := by
    unfold keywordSearchStep
    rw [if_pos hmatch, mapSet_of_not_mem]
    intro x hx
    exact hfold_ids x hx
  rw [hstep]
  refine kwsearch_fold_mem_of_ne ?_
    (List.mem_append_right _ (List.mem_singleton.mpr rfl))
  intro chz hchz
  exact htk chz hchz

lemma keywordCandidates_ids_nodup {chunks : List Chunk} {provision : Provision} :
    ((keywordCandidatesForProvision chunks provision).map
      (fun c => c.chunkId)).Nodup := by
  unfold keywordCandidatesForProvision
  suffices aux : ∀ (l : List Chunk) (acc : List CandidateChunk),
      (acc.map (fun c => c.chunkId)).Nodup →
      ((l.foldl (keywordSearchStep (getSearchPatterns provision)) acc).map
        (fun c => c.chunkId)).Nodup by
    exact aux chunks [] (by simp)
  intro l
  induction l with
  | nil => intro acc h; exact h
  | cons chz rest ih =>
    intro acc h
    rw [List.foldl_cons]
    refine ih _ ?_
    unfold keywordSearchStep
    split
    · exact mapSet_ids_nodup h
    · exact h

/-- A provision configured with seven exact-match patterns. -/
def sevenPatternProvision : Provision :=
  { provisionId := "p7"
    priority := .medium
    canonicalWording := "composite clause"
    synonyms := []
    definition := "A clause matched by seven distinct exact patterns."
    exactPatterns := some ["aa", "bb", "cc", "dd", "ee", "ff", "gg"] }

/-- A chunk whose text matches all seven patterns. -/
def sevenMatchChunk : Chunk :=
  { chunkId := "c7"
    userId := "u1"
    contractId := "k1"
    pageStart := 1
    pageEnd := 1
    text := "aa bb cc dd ee ff gg" }

/-- **C10.** A keyword-only candidate's score is exactly
`0.7 + 0.05 × (number of distinct matched patterns)` (the matched-pattern
list is duplicate-free whenever the configured pattern list is), and it is
never clamped: the `min(1.0, ·)` cap applies only on the both-sources merge
path, so a chunk matching 7 or more patterns carries a score strictly greater
than 1.0 into the merged, sorted candidate list. -/
theorem keyword_score_unclamped_into_merge (chunks : List Chunk)
    (provision : Provision) (ch : Chunk) (vectorChunks : List CandidateChunk)
    (hch : ch ∈ chunks) (hn : (chunks.map (fun c => c.chunkId)).Nodup)
    (hpat : (getSearchPatterns provision).Nodup)
    (hmatch : 0 < (keywordMatchedPatterns (getSearchPatterns provision) ch).length)
    (hko : ∀ v ∈ vectorChunks, v.chunkId ≠ ch.chunkId)
    (hnv : (vectorChunks.map (fun x => x.chunkId)).Nodup) :
    ∃ d ∈ mergeChunkLists vectorChunks
        (keywordCandidatesForProvision chunks provision),
      d.chunkId = ch.chunkId ∧ d.matchType = .keyword ∧
      ∃ matched, d.keywordMatches = some matched ∧ matched.Nodup ∧
        d.score = 0.7 + (matched.length : ℚ) * 0.05 ∧
        (7 ≤ matched.length → 1 < d.score) := by
  have hmem := keywordCandidates_mem hch hn hmatch
  have hkwn := @keywordCandidates_ids_nodup chunks provision
  have hfresh : ∀ v ∈ vectorChunks,
      v.chunkId ≠ (mkKeywordCandidate (getSearchPatterns provision) ch).chunkId := hko
  have hout := mergeChunkLists_keyword_only hnv hkwn hmem hfresh
  refine ⟨_, hout, rfl, rfl,
    keywordMatchedPatterns (getSearchPatterns provision) ch, rfl, ?_, rfl, ?_⟩
  · exact List.Nodup.filter _ hpat
  · intro h7
    have h7' : (7 : ℚ) ≤
        ((keywordMatchedPatterns (getSearchPatterns provision) ch).length : ℚ) := by
      exact_mod_cast h7
    have hmul : (7 : ℚ) * 0.05 ≤
        ((keywordMatchedPatterns (getSearchPatterns provision) ch).length : ℚ) * 0.05 :=
      mul_le_mul_of_nonneg_right h7' (by norm_num)
    show (1 : ℚ) < 0.7 +
      ((keywordMatchedPatterns (getSearchPatterns provision) ch).length : ℚ) * 0.05
    nlinarith [hmul]

/-- Witness for C10: a chunk matching seven exact patterns. -/
theorem keyword_score_unclamped_into_merge_witness :
    ∃ d ∈ mergeChunkLists []
        (keywordCandidatesForProvision [sevenMatchChunk] sevenPatternProvision),
      d.chunkId = sevenMatchChunk.chunkId ∧ d.matchType = .keyword ∧
      ∃ matched, d.keywordMatches = some matched ∧ matched.Nodup ∧
        d.score = 0.7 + (matched.length : ℚ) * 0.05 ∧
        (7 ≤ matched.length → 1 < d.score) :=
  keyword_score_unclamped_into_merge [sevenMatchChunk] sevenPatternProvision
    sevenMatchChunk [] (by simp) (by decide) (by decide) (by decide)
    (by simp) (by simp)

/-! ## Lemmas about the fallible vector-screening pipeline -/

lemma except_bind_ok {ε α β : Type} {e : Except ε α} {f : α → Except ε β} {b : β}
    (h : (e >>= f) = .ok b) : ∃ a, e = .ok a ∧ f a = .ok b := by
  cases e with
  | error err => cases h
  | ok a => exact ⟨a, rfl, h⟩

lemma except_pure_ok {ε α : Type} {a b : α}
    (h : (pure a : Except ε α) = .ok b) : a = b := by
  cases h
  rfl

lemma mem_recordSet {m : CandidateMap} {pid : String} {cands : List CandidateChunk}
    {e : String × List CandidateChunk} (he : e ∈ recordSet m pid cands) :
    e ∈ m ∨ e = (pid, cands) := by
  unfold recordSet at he
  split at he
  · rcases List.mem_map.mp he with ⟨y, hy, hyx⟩
    by_cases hyk : y.1 = pid
    · right
      rw [← hyx]
      simp [hyk]
    · left
      rw [← hyx]
      simpa [hyk] using hy
  · rcases List.mem_append.mp he with h | h
    · exact Or.inl h
    · exact Or.inr (by simpa using h)

lemma screenProvisionVector_length {search : SearchFn} {embs : ProvisionEmbeddings}
    {cands : List CandidateChunk} (h : screenProvisionVector search embs = .ok cands) :
    cands.length ≤ analysisConfig.prescreening.topKPerProvision := by
  unfold screenProvisionVector at h
  rcases except_bind_ok h with ⟨canonicalResults, -, h1⟩
  rcases except_bind_ok h1 with ⟨afterSynonyms, -, h2⟩
  rcases except_bind_ok h2 with ⟨afterQueries, -, h3⟩
  have := except_pure_ok h3
  rw [← this, List.length_take]
  exact Nat.min_le_left _ _

lemma screenProvisionStep_ok_bound {search : SearchFn}
    {cache : String → Option ProvisionEmbeddings} {acc acc' : CandidateMap}
    {q : Provision}
    (hacc : ∀ e ∈ acc, e.2.length ≤ analysisConfig.prescreening.topKPerProvision)
    (h : screenProvisionStep search cache acc q = .ok acc') :
    ∀ e ∈ acc', e.2.length ≤ analysisConfig.prescreening.topKPerProvision := by
  unfold screenProvisionStep at h
  intro e he
  cases hc : cache q.provisionId with
  | none =>
    rw [hc] at h
    have hacc' := except_pure_ok h
    rw [← hacc'] at he
    rcases mem_recordSet he with h' | h'
    · exact hacc e h'
    · rw [h']
      simp
  | some pe =>
    rw [hc] at h
    rcases except_bind_ok h with ⟨cands, hscreen, hpure⟩
    have hacc' := except_pure_ok hpure
    rw [← hacc'] at he
    rcases mem_recordSet he with h' | h'
    · exact hacc e h'
    · rw [h']
      exact screenProvisionVector_length hscreen

lemma findCandidates_fold_bound (search : SearchFn)
    (cache : String → Option ProvisionEmbeddings) :
    ∀ (ps : List Provision) (acc : CandidateMap),
    (∀ e ∈ acc, e.2.length ≤ analysisConfig.prescreening.topKPerProvision) →
    ∀ {m : CandidateMap},
    ps.foldlM (screenProvisionStep search cache) acc = .ok m →
    ∀ e ∈ m, e.2.length ≤ analysisConfig.prescreening.topKPerProvision := by
  intro ps
  induction ps with
  | nil =>
    intro acc hacc m h
    have := except_pure_ok h
    rw [← this]
    exact hacc
  | cons q qs ih =>
    intro acc hacc m h
    rw [List.foldlM_cons] at h
    rcases except_bind_ok h with ⟨acc', hstep, hrest⟩
    exact ih acc' (screenProvisionStep_ok_bound hacc hstep) hrest

lemma mem_populate {chunks : List Chunk} {cm : CandidateMap}
    {e : String × List CandidateChunk} (he : e ∈ populateCandidateTexts chunks cm) :
    ∃ e' ∈ cm, e.2.length = e'.2.length := by
  unfold populateCandidateTexts at he
  rcases List.mem_map.mp he with ⟨e', he', rfl⟩
  exact ⟨e', he', by simp⟩

lemma mergeChunkLists_sorted (vc kc : List CandidateChunk) :
    (mergeChunkLists vc kc).Pairwise (fun a b => b.score ≤ a.score) := by
  unfold mergeChunkLists
  exact sortByScoreDesc_sorted _

/-- **C7 (amended).** Every per-provision candidate list produced by
pre-screening is sorted by score descending, and the vector-derived
per-provision lists are truncated to `topKPerProvision`; the merged list
itself is **not** truncated (see the counterexample), since
`mergeCandidates` only sorts. -/
theorem prescreening_sorted_and_vector_truncated (search : SearchFn)
    (cache : String → Option ProvisionEmbeddings) (chunks : List Chunk)
    (provisions : List Provision) (m vm : CandidateMap)
    (hm : runPreScreening search cache chunks provisions = .ok m)
    (hvm : findCandidatesForAllProvisions search cache chunks provisions = .ok vm) :
    (∀ e ∈ m, e.2.Pairwise (fun a b => b.score ≤ a.score)) ∧
    (∀ e ∈ vm, e.2.length ≤ analysisConfig.prescreening.topKPerProvision) := by
  constructor
  · intro e he
    unfold runPreScreening at hm
    rcases except_bind_ok hm with ⟨vc, -, hpure⟩
    have hmeq := except_pure_ok hpure
    rw [← hmeq] at he
    rw [mergeCandidates_eq_map] at he
    rcases List.mem_map.mp he with ⟨pid, -, rfl⟩
    exact mergeChunkLists_sorted _ _
  · intro e he
    unfold findCandidatesForAllProvisions at hvm
    rcases except_bind_ok hvm with ⟨m', hfold, hpure⟩
    have hvmeq := except_pure_ok hpure
    rw [← hvmeq] at he
    rcases mem_populate he with ⟨e', he', hlen⟩
    rw [hlen]
    exact findCandidates_fold_bound search cache provisions [] (by simp) hfold e' he'

lemma foldl_kwMergeStep_eq_append :
    ∀ (l : List CandidateChunk) (acc : List CandidateChunk),
    (∀ x ∈ acc, ∀ y ∈ l, x.chunkId ≠ y.chunkId) →
    ((l.map (fun c => c.chunkId)).Nodup) →
    l.foldl kwMergeStep acc = acc ++ l := by
  intro l
  induction l with
  | nil => intro acc _ _; simp
  | cons c rest ih =>
    intro acc hd hnd
    have hnd' : c.chunkId ∉ rest.map (fun c => c.chunkId) ∧
        (rest.map (fun c => c.chunkId)).Nodup := by
      rw [List.map_cons] at hnd
      exact List.nodup_cons.mp hnd
    have hnone : acc.find? (fun x => x.chunkId = c.chunkId) = none :=
      List.find?_eq_none.mpr
        (fun x hx => by simpa using hd x hx c (List.mem_cons_self _ _))
    rw [List.foldl_cons, kwMergeStep_append_of_none hnone, ih _ ?_ hnd'.2]
    · simp
    · intro x hx y hy
      rcases List.mem_append.mp hx with hxa | hxc
      · exact hd x hxa y (List.mem_cons_of_mem _ hy)
      · have hxeq : x = c := by simpa using hxc
        subst hxeq
        intro heq
        exact hnd'.1 (heq ▸ List.mem_map_of_mem _ hy)

/-- A vector store returning no matches. -/
def emptySearch : SearchFn := fun _ _ => .ok []

/-- An embedding cache with no entry for any provision. -/
def cacheMiss : String → Option ProvisionEmbeddings := fun _ => none

/-- Witness for C7: the empty run. -/
theorem prescreening_sorted_and_vector_truncated_witness :
    (∀ e ∈ ([] : CandidateMap), e.2.Pairwise (fun a b => b.score ≤ a.score)) ∧
    (∀ e ∈ ([] : CandidateMap),
      e.2.length ≤ analysisConfig.prescreening.topKPerProvision) :=
  prescreening_sorted_and_vector_truncated emptySearch cacheMiss [] [] [] [] rfl rfl

/-- A provision with one exact pattern matched by six chunks. -/
def sixPatternProvision : Provision :=
  { provisionId := "p6"
    priority := .low
    canonicalWording := "notice"
    synonyms := []
    definition := "A clause found by one exact pattern."
    exactPatterns := some ["notice"] }

/-- Six distinct chunks all containing the pattern. -/
def sixChunks : List Chunk :=
  [{ chunkId := "c1", userId := "u", contractId := "k", pageStart := 1, pageEnd := 1,
     text := "notice one" },
   { chunkId := "c2", userId := "u", contractId := "k", pageStart := 2, pageEnd := 2,
     text := "notice two" },
   { chunkId := "c3", userId := "u", contractId := "k", pageStart := 3, pageEnd := 3,
     text := "notice three" },
   { chunkId := "c4", userId := "u", contractId := "k", pageStart := 4, pageEnd := 4,
     text := "notice four" },
   { chunkId := "c5", userId := "u", contractId := "k", pageStart := 5, pageEnd := 5,
     text := "notice five" },
   { chunkId := "c6", userId := "u", contractId := "k", pageStart := 6, pageEnd := 6,
     text := "notice six" }]

/-- Counterexample for C7 as stated: a run whose merged per-provision list has
six candidates — more than `topKPerProvision = 5` — because keyword candidates
are never truncated by `mergeCandidates`. -/
theorem merged_list_not_truncated_cex :
    (runPreScreening emptySearch cacheMiss sixChunks [sixPatternProvision]).map
        (fun m => ((lookupRecord m "p6").getD []).length) = Except.ok 6 ∧
    ¬ (6 ≤ analysisConfig.prescreening.topKPerProvision) := by
  refine ⟨?_, by decide⟩
  have hrun : runPreScreening emptySearch cacheMiss sixChunks [sixPatternProvision] =
      .ok (mergeCandidates [("p6", [])]
        (runExactKeywordSearch sixChunks [sixPatternProvision])) := rfl
  rw [hrun]
  have hlook :
      lookupRecord (mergeCandidates [("p6", [])]
        (runExactKeywordSearch sixChunks [sixPatternProvision])) "p6" =
      some (mergeChunkLists
        ((lookupRecord [("p6", ([] : List CandidateChunk))] "p6").getD [])
        ((lookupRecord (runExactKeywordSearch sixChunks [sixPatternProvision])
          "p6").getD [])) :=
    mergeCandidates_lookup _ _ "p6" (Or.inl (by simp))
  have hv : lookupRecord [("p6", ([] : List CandidateChunk))] "p6" = some [] := rfl
  have hkw : lookupRecord (runExactKeywordSearch sixChunks [sixPatternProvision])
      "p6" = some (keywordCandidatesForProvision sixChunks sixPatternProvision) := rfl
  rw [hv, hkw] at hlook
  simp only [Option.getD_some] at hlook
  have hmerge : mergeChunkLists []
      (keywordCandidatesForProvision sixChunks sixPatternProvision) =
      sortByScoreDesc (keywordCandidatesForProvision sixChunks sixPatternProvision) := by
    show sortByScoreDesc
        ((keywordCandidatesForProvision sixChunks sixPatternProvision).foldl
          kwMergeStep []) =
      sortByScoreDesc (keywordCandidatesForProvision sixChunks sixPatternProvision)
    rw [foldl_kwMergeStep_eq_append _ []
      (fun x hx => absurd hx (List.not_mem_nil x)) keywordCandidates_ids_nodup,
      List.nil_append]
  rw [hmerge] at hlook
  have hlen : (keywordCandidatesForProvision sixChunks sixPatternProvision).length = 6 := by
    decide
  simp only [Except.map, hlook, Option.getD_some, sortByScoreDesc_length, hlen]

lemma except_bind_error_left {ε α β : Type} {e : Except ε α} {f : α → Except ε β}
    {err : ε} (h : e = .error err) : (e >>= f) = .error err := by
  rw [h]
  rfl

lemma except_bind_ok_left {ε α β : Type} {e : Except ε α} {f : α → Except ε β}
    {a : α} (h : e = .ok a) : (e >>= f) = f a := by
  rw [h]
  rfl

lemma findCandidates_fold_error (search : SearchFn)
    (cache : String → Option ProvisionEmbeddings) :
    ∀ (ps : List Provision) (acc : CandidateMap) (p : Provision)
      (embs : ProvisionEmbeddings),
    p ∈ ps → cache p.provisionId = some embs →
    (∃ err, screenProvisionVector search embs = .error err) →
    ∃ err, ps.foldlM (screenProvisionStep search cache) acc = .error err := by
  intro ps
  induction ps with
  | nil => intro acc p embs hp; cases hp
  | cons q qs ih =>
    intro acc p embs hp hc he
    rw [List.foldlM_cons]
    rcases List.mem_cons.mp hp with rfl | hp'
    · rcases he with ⟨err, herr⟩
      refine ⟨err, except_bind_error_left ?_⟩
      unfold screenProvisionStep
      rw [hc]
      exact except_bind_error_left herr
    · cases hstep : screenProvisionStep search cache acc q with
      | error e => exact ⟨e, rfl⟩
      | ok acc' =>
        rcases ih acc' p embs hp' hc he with ⟨err, herr⟩
        exact ⟨err, herr⟩

/-- **C6 (amended).** A vector-retrieval provider error on any query
(canonical, a synonym, or a search query) is NOT isolated to that query: the
`await`ed `searchVectors` calls have no try/catch, so the error aborts the
whole pre-screening run — no other query signal and no keyword-sweep
candidate survives, and `runPreScreening` rejects with the provider error. -/
theorem prescreening_query_error_aborts (search : SearchFn)
    (cache : String → Option ProvisionEmbeddings) (chunks : List Chunk)
    (provisions : List Provision) (p : Provision) (embs : ProvisionEmbeddings)
    (hp : p ∈ provisions) (hc : cache p.provisionId = some embs)
    (he : ∃ err, screenProvisionVector search embs = .error err) :
    ∃ err, runPreScreening search cache chunks provisions = .error err := by
  rcases findCandidates_fold_error search cache provisions [] p embs hp hc he with
    ⟨err, herr⟩
  refine ⟨err, except_bind_error_left ?_⟩
  unfold findCandidatesForAllProvisions
  exact except_bind_error_left herr

/-- A vector store whose every query fails with a provider error. -/
def failingSearch : SearchFn := fun _ _ => .error "provider down"

/-- An embedding cache holding (empty) embeddings for every provision, so the
canonical query is issued. -/
def unitCache : String → Option ProvisionEmbeddings := fun _ => some ⟨[], [], []⟩

/-- Witness for C6: a concrete run where the canonical query errors. -/
theorem prescreening_query_error_aborts_witness :
    ∃ err, runPreScreening failingSearch unitCache sixChunks [sixPatternProvision] =
      .error err :=
  prescreening_query_error_aborts failingSearch unitCache sixChunks
    [sixPatternProvision] sixPatternProvision ⟨[], [], []⟩ (by simp) rfl
    ⟨"provider down", rfl⟩

/-- Counterexample for C6 as stated: the keyword sweep alone would contribute
a candidate for every one of the six chunks, yet a single provider error on
the (only) vector query makes the whole `runPreScreening` reject — the other
signals do not contribute and the provision's screening is aborted. -/
theorem prescreening_query_error_aborts_cex :
    runPreScreening failingSearch unitCache sixChunks [sixPatternProvision] =
      .error "provider down" ∧
    ((lookupRecord (runExactKeywordSearch sixChunks [sixPatternProvision])
        "p6").getD []).length = 6 :=
  ⟨rfl, by decide⟩
